import Mathlib

/-!
# Airwell infrared remote protocol: frame encoder and IR modulator

A shallow embedding of `src/main.c`.  Machine integers are natural numbers
with explicit truncation (`% 2^w`) wherever the C code converts to a narrower
type or stores into a bit-field.  The hardware driver calls are recorded as a
list of events in program order.
-/

namespace Airwell

/-! ## Protocol constants (main.c lines 18-25) -/

def TIME_PREAMBLE_HIGH_US : Nat := 3050
def TIME_PREAMBLE_LOW_US : Nat := 2900
def TIME_MANCHESTER_TRANSITION_US : Nat := 950
def TEMP_MAX_C : Nat := 30
def TEMP_MIN_C : Nat := 16

/-! ## Enumerations (main.c lines 30-51) -/

/-- Operating mode, `enum air_mode_t`. -/
inductive air_mode_t
  | COOL
  | HEAT
  | RECYCLE
  | WATER
  | FAN
  deriving DecidableEq, Repr

/-- The enumerator values of `enum air_mode_t`. -/
def air_mode_t.val : air_mode_t → Nat
  | .COOL => 0x04
  | .HEAT => 0x02
  | .RECYCLE => 0x06
  | .WATER => 0x01
  | .FAN => 0x05

/-- Fan speed, `enum fan_speed_t`. -/
inductive fan_speed_t
  | F_LOW
  | F_MED
  | F_HI
  | F_AUTO
  deriving DecidableEq, Repr

/-- The enumerator values of `enum fan_speed_t`. -/
def fan_speed_t.val : fan_speed_t → Nat
  | .F_LOW => 0x00
  | .F_MED => 0x02
  | .F_HI => 0x01
  | .F_AUTO => 0x03

/-- Function, `enum function_t`. -/
inductive function_t
  | SETTING
  | POWER
  deriving DecidableEq, Repr

/-- The enumerator values of `enum function_t`. -/
def function_t.val : function_t → Nat
  | .SETTING => 0x00
  | .POWER => 0x01

/-! ## The frame bit-field (main.c lines 53-67) -/

/-- The bit-field record `struct infrared_frame_t`; every field holds a value
below two to the power of its declared width. -/
structure infrared_frame_t where
  function : Nat
  mode : Nat
  fan : Nat
  reserved1 : Nat
  temp : Nat
  reserved2 : Nat
  deriving DecidableEq, Repr

/-- The record after `memset(&remoteParams.bitfield, 0, ...)`. -/
def infrared_frame_t.zeroed : infrared_frame_t :=
  { function := 0, mode := 0, fan := 0, reserved1 := 0, temp := 0, reserved2 := 0 }

/-- Reading the `bits` member of `union infrared_frame_converter_t`: the
fields are allocated from the least-significant bit upwards in declaration
order (widths 1, 3, 2, 3, 8, 15), as on the little-endian target ABI. -/
def infrared_frame_t.bits (f : infrared_frame_t) : Nat :=
  f.function + 2 * f.mode + 16 * f.fan + 64 * f.reserved1 + 512 * f.temp
    + 131072 * f.reserved2

/-- The conversion `(uint8_t) (4*temp - 60)` of `encodeTemperature`. -/
def encodeTemperature (temp : Int) : Nat :=
  ((4 * temp - 60) % 256).toNat

/-- Lines 281-300 of `main`: clear the record, store the four fields (each
store truncates to the width of its bit-field) and read the union back as a
32-bit word. -/
def buildFrame (func : function_t) (mode : air_mode_t) (fan : fan_speed_t)
    (temp : Nat) : Nat :=
  let frame := infrared_frame_t.zeroed
  let frame := { frame with fan := fan.val % 4 }
  let frame := { frame with function := func.val % 2 }
  let frame := { frame with mode := mode.val % 8 }
  let frame := { frame with temp := temp % 256 }
  frame.bits

/-! ## Hardware events and the modulator (main.c lines 69-133) -/

/-- One call into the hardware layer, in program order.  `pwm_set_mode e` is
`bcm2835_pwm_set_mode(PWM_CHANNEL, 1, e)` (carrier on or off) and `delay us`
is `system_timer_delay(us)`; the other four are the one-time configuration
calls of `main`. -/
inductive Event
  | pwm_set_mode (enabled : Bool)
  | delay (us : Nat)
  | gpio_fsel
  | pwm_set_clock
  | pwm_set_range (range : Nat)
  | pwm_set_data (data : Nat)
  deriving DecidableEq, Repr

def RANGE : Nat := 253
def PWM_DUTY : Nat := 40

/-- The events of `outPreamble`. -/
def outPreamble : List Event :=
  [.pwm_set_mode true, .delay TIME_PREAMBLE_HIGH_US,
   .pwm_set_mode false, .delay TIME_PREAMBLE_LOW_US]

/-- The events of `outBitLow`: carrier on, wait, carrier off, wait. -/
def outBitLow : List Event :=
  [.pwm_set_mode true, .delay TIME_MANCHESTER_TRANSITION_US,
   .pwm_set_mode false, .delay TIME_MANCHESTER_TRANSITION_US]

/-- The events of `outBitHigh`: carrier off, wait, carrier on, wait. -/
def outBitHigh : List Event :=
  [.pwm_set_mode false, .delay TIME_MANCHESTER_TRANSITION_US,
   .pwm_set_mode true, .delay TIME_MANCHESTER_TRANSITION_US]

/-- The `for` loop of `modulateIR` with `n` iterations left and the current
value of the local `bits`. -/
def modulateLoop : Nat → Nat → List Event
  | 0, _ => []
  | n + 1, bits =>
    (if bits &&& 0x00000001 ≠ 0 then outBitHigh else outBitLow)
      ++ modulateLoop n (bits >>> 1)

/-- The events of `modulateIR(frame)`; the parameter is a `uint32_t`. -/
def modulateIR (frame : Nat) : List Event :=
  let bits := frame % 4294967296
  outPreamble ++ modulateLoop 32 bits ++ outBitHigh ++ outBitLow

/-- Lines 291-296 of `main`: the one-time carrier configuration, ending with
the carrier disabled. -/
def setupPWM : List Event :=
  [.gpio_fsel, .pwm_set_clock, .pwm_set_range RANGE,
   .pwm_set_data ((PWM_DUTY * RANGE) / 100), .pwm_set_mode false]

/-- Lines 306-314 of `main`: three frame repetitions, then the stop pulse and
the final carrier-off. -/
def transmit (bits : Nat) : List Event :=
  modulateIR bits ++ modulateIR bits ++ modulateIR bits
    ++ [.pwm_set_mode true, .delay 4000, .pwm_set_mode false]

/-! ## C library functions used by `main` -/

/-- The function `strncmp` on strings given as the characters before their
terminating NUL. -/
def strncmp : List Char → List Char → Nat → Int
  | _, _, 0 => 0
  | [], [], _ + 1 => 0
  | [], b :: _, _ + 1 => 0 - (b.toNat : Int)
  | a :: _, [], _ + 1 => (a.toNat : Int)
  | a :: s1, b :: s2, n + 1 =>
    if a = b then strncmp s1 s2 n else (a.toNat : Int) - (b.toNat : Int)

def isspace (c : Char) : Bool :=
  c.toNat = 32 || (9 ≤ c.toNat && c.toNat ≤ 13)

def isdigit (c : Char) : Bool :=
  48 ≤ c.toNat && c.toNat ≤ 57

/-- The function `strtol(nptr, &endptr, 10)`: the value and the unparsed
rest.  `longMax` is `LONG_MAX` of the platform; out-of-range values are
clamped to `[-longMax - 1, longMax]`.  With no digits the value is 0 and the
rest is the whole input. -/
def strtol (longMax : Nat) (nptr : List Char) : Int × List Char :=
  let s := nptr.dropWhile isspace
  let neg : Bool := match s with
    | c :: _ => c = '-'
    | [] => false
  let s := match s with
    | c :: r => if c = '-' ∨ c = '+' then r else s
    | [] => s
  let digits := s.takeWhile isdigit
  let rest := s.dropWhile isdigit
  if digits = [] then (0, nptr)
  else
    let n : Nat := digits.foldl (fun acc c => 10 * acc + (c.toNat - 48)) 0
    let v : Int := if neg then -(n : Int) else (n : Int)
    (max (-(longMax : Int) - 1) (min v (longMax : Int)), rest)

/-! ## The program entry point (main.c lines 174-317) -/

/-- How a run of `main` ends.  Text written to standard output (the usage and
error messages, the debug print of the word) is not recorded. -/
inductive Outcome
  /-- The usage text is printed (`return usage(argv[0])`), exit status 1. -/
  | usage
  /-- The temperature range message is printed, exit status 1. -/
  | badTemperature
  /-- `bcm2835_init` failed, exit status 1. -/
  | initError
  /-- An element of `argv` at or beyond `argc` was dereferenced as a string
  (`argv[argc]` is the null pointer, what lies beyond is not part of `argv`). -/
  | fault
  /-- The word `bits` was built and the events were issued, exit status 0. -/
  | sent (bits : Nat) (trace : List Event)
  deriving DecidableEq, Repr

/-- The exit status of `main`, when it returns. -/
def Outcome.exitStatus : Outcome → Option Nat
  | .usage => some 1
  | .badTemperature => some 1
  | .initError => some 1
  | .fault => none
  | .sent _ _ => some 0

/-- A run of `main`: the indices `i` of the elements `argv[i]` it read, in
program order, and how it ended.  Consecutive comparisons of the same element
count as one read. -/
structure Run where
  reads : List Nat
  outcome : Outcome
  deriving DecidableEq, Repr

/-- Ending a run with no further read of `argv`. -/
def Run.done (o : Outcome) : Run :=
  { reads := [], outcome := o }

/-- Reading `argv[i]` as a string and continuing with it; the read is recorded,
and a read at or beyond `argc` ends the run with a fault. -/
def withArg (argv : List (List Char)) (i : Nat) (k : List Char → Run) : Run :=
  match argv[i]? with
  | some a => { reads := i :: (k a).reads, outcome := (k a).outcome }
  | none => { reads := [i], outcome := .fault }

/-- The function `usage(arg)`: prints the usage text, which shows `arg`, and
returns 1. -/
def usage (_arg : List Char) : Run :=
  .done .usage

/-- The statement `return usage(argv[0]);`. -/
def returnUsage (argv : List (List Char)) : Run :=
  withArg argv 0 usage

/-- Lines 193-204: the function argument. -/
def parseFunction (a : List Char) : Option function_t :=
  if strncmp a "power".toList 5 = 0 then some .POWER
  else if strncmp a "set".toList 3 = 0 then some .SETTING
  else none

/-- Lines 206-229: the mode argument. -/
def parseMode (a : List Char) : Option air_mode_t :=
  if strncmp a "cool".toList 4 = 0 then some .COOL
  else if strncmp a "heat".toList 4 = 0 then some .HEAT
  else if strncmp a "fan".toList 3 = 0 then some .FAN
  else if strncmp a "recycle".toList 7 = 0 then some .RECYCLE
  else if strncmp a "droplet".toList 7 = 0 then some .WATER
  else none

/-- Lines 252-271: the fan argument. -/
def parseFan (a : List Char) : Option fan_speed_t :=
  if strncmp a "low".toList 3 = 0 then some .F_LOW
  else if strncmp a "med".toList 3 = 0 then some .F_MED
  else if strncmp a "hi".toList 2 = 0 then some .F_HI
  else if strncmp a "auto".toList 4 = 0 then some .F_AUTO
  else none

/-- Lines 274-316: initialise the driver, build the word, configure the
carrier and transmit. -/
def mainSend (initOk : Bool) (func : function_t) (mode : air_mode_t)
    (fan : fan_speed_t) (temp : Nat) : Outcome :=
  if !initOk then .initError
  else
    let bits := buildFrame func mode fan temp
    .sent bits (setupPWM ++ transmit bits)

/-- Lines 188-316 of `main`, after the argument-count check. -/
def mainBody (longMax : Nat) (initOk : Bool) (argv : List (List Char)) : Run :=
  withArg argv 1 fun a1 =>
  match parseFunction a1 with
  | none => returnUsage argv
  | some func =>
  withArg argv 2 fun a2 =>
  match parseMode a2 with
  | none => returnUsage argv
  | some mode =>
  withArg argv 3 fun a3 =>
  let r := strtol longMax a3
  let temp : Nat := (r.1 % 256).toNat
  let errs := r.2
  if errs ≠ [] then returnUsage argv
  else if temp < TEMP_MIN_C ∨ temp > TEMP_MAX_C then .done .badTemperature
  else
    let temp := encodeTemperature temp
    if mode = air_mode_t.WATER then .done (mainSend initOk func mode .F_LOW temp)
    else
      withArg argv 4 fun a4 =>
      match parseFan a4 with
      | none => returnUsage argv
      | some fan => .done (mainSend initOk func mode fan temp)

/-- The function `main` with its reads of `argv`; `argc` is the length of
`argv`.  `longMax` is the platform's `LONG_MAX` and `initOk` the result of
`bcm2835_init`. -/
def mainRun (longMax : Nat) (initOk : Bool) (argv : List (List Char)) : Run :=
  let argc := argv.length
  if argc = 4 then
    withArg argv 2 fun a2 =>
    if strncmp a2 "droplet".toList 7 ≠ 0 then returnUsage argv
    else mainBody longMax initOk argv
  else if argc ≠ 5 then returnUsage argv
  else mainBody longMax initOk argv

/-- How the function `main` ends on the argument vector `argv`. -/
def main (longMax : Nat) (initOk : Bool) (argv : List (List Char)) : Outcome :=
  (mainRun longMax initOk argv).outcome

/-- Lines 244-300 of `main` for a command whose function, mode, temperature
(the `uint8_t` value that passed the range check) and requested fan speed
have been read: encode the temperature, force the fan to `F_LOW` in `WATER`
mode, and build the word. -/
def encodeCommand (func : function_t) (mode : air_mode_t) (fanReq : fan_speed_t)
    (temp : Nat) : Nat :=
  let temp := encodeTemperature temp
  let fan := if mode = air_mode_t.WATER then fan_speed_t.F_LOW else fanReq
  buildFrame func mode fan temp

/-! ## Reading a recorded trace -/

/-- Whether an event is a carrier command (`bcm2835_pwm_set_mode`). -/
def Event.isCarrierCommand : Event → Bool
  | .pwm_set_mode _ => true
  | _ => false

/-- The timed carrier phases at the head of a trace: every carrier command
directly followed by a delay, as (carrier state, microseconds). -/
def timedPhases : List Event → List (Bool × Nat)
  | .pwm_set_mode e :: .delay us :: rest => (e, us) :: timedPhases rest
  | _ => []

/-- What is left of a trace after its leading timed carrier phases. -/
def afterPhases : List Event → List Event
  | .pwm_set_mode _ :: .delay _ :: rest => afterPhases rest
  | l => l

/-- The protocol elements a receiver distinguishes. -/
inductive Token
  | preamble
  | symbol (bit : Bool)
  | stop
  deriving DecidableEq, Repr

def Token.isSymbol : Token → Bool
  | .symbol _ => true
  | _ => false

/-- Reads a sequence of timed phases as protocol elements, left to right: a
preamble is ON 3050 then OFF 2900, the symbol of bit 1 is OFF 950 then ON 950,
the symbol of bit 0 is ON 950 then OFF 950, a stop pulse is ON 4000.  Any
other phase makes the reading fail. -/
def tokens : List (Bool × Nat) → Option (List Token)
  | [] => some []
  | [p] => if p = (true, 4000) then some [.stop] else none
  | p :: q :: rest =>
    if p = (true, TIME_PREAMBLE_HIGH_US) ∧ q = (false, TIME_PREAMBLE_LOW_US) then
      (tokens rest).map (Token.preamble :: ·)
    else if p = (false, TIME_MANCHESTER_TRANSITION_US)
        ∧ q = (true, TIME_MANCHESTER_TRANSITION_US) then
      (tokens rest).map (Token.symbol true :: ·)
    else if p = (true, TIME_MANCHESTER_TRANSITION_US)
        ∧ q = (false, TIME_MANCHESTER_TRANSITION_US) then
      (tokens rest).map (Token.symbol false :: ·)
    else if p = (true, 4000) then
      (tokens (q :: rest)).map (Token.stop :: ·)
    else none

/-- The events the program issues for one protocol element. -/
def Token.events : Token → List Event
  | .preamble => outPreamble
  | .symbol true => outBitHigh
  | .symbol false => outBitLow
  | .stop => [.pwm_set_mode true, .delay 4000]

/-- The timed phases of one protocol element. -/
def Token.phases : Token → List (Bool × Nat)
  | .preamble => [(true, TIME_PREAMBLE_HIGH_US), (false, TIME_PREAMBLE_LOW_US)]
  | .symbol true =>
    [(false, TIME_MANCHESTER_TRANSITION_US), (true, TIME_MANCHESTER_TRANSITION_US)]
  | .symbol false =>
    [(true, TIME_MANCHESTER_TRANSITION_US), (false, TIME_MANCHESTER_TRANSITION_US)]
  | .stop => [(true, 4000)]

def renderTokens : List Token → List Event
  | [] => []
  | t :: ts => t.events ++ renderTokens ts

def tokenPhases : List Token → List (Bool × Nat)
  | [] => []
  | t :: ts => t.phases ++ tokenPhases ts

/-- The low `n` bits of `bits`, least significant first. -/
def dataBits : Nat → Nat → List Bool
  | 0, _ => []
  | n + 1, bits => bits.testBit 0 :: dataBits n (bits >>> 1)

/-- The protocol elements of one frame repetition: the preamble, the 32 data
bits least significant first, then the trailer bits 1 and 0. -/
def frameTokens (frame : Nat) : List Token :=
  .preamble :: ((dataBits 32 (frame % 4294967296)).map Token.symbol
    ++ [.symbol true, .symbol false])

/-- The protocol elements of a full transmission. -/
def transmitTokens (frame : Nat) : List Token :=
  frameTokens frame ++ frameTokens frame ++ frameTokens frame ++ [.stop]

/-- The fan value stored by `encodeCommand`. -/
def storedFan (mode : air_mode_t) (fanReq : fan_speed_t) : fan_speed_t :=
  if mode = air_mode_t.WATER then fan_speed_t.F_LOW else fanReq

/-- An argument vector written as string literals. -/
def args (l : List String) : List (List Char) :=
  l.map String.toList

/-- The carrier state a trace leaves behind: the argument of its last carrier
command, or the given state when it has none. -/
def carrierAfter : Option Bool → List Event → Option Bool
  | s, [] => s
  | _, .pwm_set_mode e :: rest => carrierAfter (some e) rest
  | s, _ :: rest => carrierAfter s rest

/-! ## The busy-wait delay (main.c lines 69-75) -/

/-- The number of values of a `uint64_t`. -/
def UINT64_MOD : Nat := 18446744073709551616

/-- Subtraction of two `uint64_t` values. -/
def sub64 (a b : Nat) : Nat :=
  (a % UINT64_MOD + UINT64_MOD - b % UINT64_MOD) % UINT64_MOD

/-- The `while` loop of `system_timer_delay`: `reads k` is what the `k`-th call
of `bcm2835_st_read` returns, `k` the number of the next call and `fuel` a
bound on the calls still made.  The result is the number of the call whose
reading ended the loop. -/
def timerLoop (reads : Nat → Nat) (start microseconds : Nat) : Nat → Nat → Option Nat
  | 0, _ => none
  | fuel + 1, k =>
    if sub64 (reads k) start < microseconds then
      timerLoop reads start microseconds fuel (k + 1)
    else some k

/-- The function `system_timer_delay(microseconds)`: call 0 of
`bcm2835_st_read` gives `start`, the calls from 1 on are the polls of the
loop. -/
def system_timer_delay (reads : Nat → Nat) (microseconds fuel : Nat) : Option Nat :=
  let start := reads 0 % UINT64_MOD
  timerLoop reads start (microseconds % UINT64_MOD) fuel 1

/-! ## A receiver for one frame -/

/-- Reads `n` two-phase symbols from a sequence of timed phases and assembles
their bits least significant first: a symbol whose first phase is carrier OFF
is a 1, one whose first phase is carrier ON is a 0. -/
def decodeBits : Nat → List (Bool × Nat) → Nat
  | 0, _ => 0
  | n + 1, p :: _ :: rest => (if p.1 then 0 else 1) + 2 * decodeBits n rest
  | _ + 1, _ => 0

/-- Decodes the timed phases of one frame repetition: skips the two preamble
phases and reads 32 data symbols. -/
def decodeIR (phases : List (Bool × Nat)) : Nat :=
  decodeBits 32 (phases.drop 2)

/-! ## Durations along a trace -/

/-- The sum of all delays requested along a trace, in microseconds. -/
def totalDelay : List Event → Nat
  | [] => 0
  | .delay us :: rest => us + totalDelay rest
  | _ :: rest => totalDelay rest

/-- The time spent in delays while the carrier is commanded ON, starting from
carrier state `s`. -/
def carrierOnTime : Bool → List Event → Nat
  | _, [] => 0
  | _, .pwm_set_mode e :: rest => carrierOnTime e rest
  | s, .delay us :: rest => (if s then us else 0) + carrierOnTime s rest
  | s, _ :: rest => carrierOnTime s rest

/-! ## Runs of carrier-ON phases -/

/-- One step of the scan for carrier-ON runs: the state is the summed duration
of the run still open (if any) and the runs already closed, in order.  An ON
phase extends or opens the run, an OFF phase closes it. -/
def runStep (st : Option Nat × List Nat) (p : Bool × Nat) : Option Nat × List Nat :=
  if p.1 then (some (st.1.getD 0 + p.2), st.2) else (none, st.2 ++ st.1.toList)

/-- The summed durations of the maximal runs of consecutive carrier-ON phases
of a sequence of timed phases, in order. -/
def onRuns (phases : List (Bool × Nat)) : List Nat :=
  let st := phases.foldl runStep (none, [])
  st.2 ++ st.1.toList

/-- The timed phases of the data and trailer section of one frame repetition:
those of `modulateIR(frame)` after the two preamble phases. -/
def dataTrailerPhases (frame : Nat) : List (Bool × Nat) :=
  (timedPhases (modulateIR frame)).drop 2

/-! ## Reference values stated by the specification -/

/-- The fan-speed codes as the specification lists them (LOW=0b00, MED=0b01,
HI=0b10, AUTO=0b11); used only to compare with the word built by the code. -/
def specFanCode : fan_speed_t → Nat
  | .F_LOW => 0b00
  | .F_MED => 0b01
  | .F_HI => 0b10
  | .F_AUTO => 0b11

/-! ## Arithmetic of the packed word -/

theorem function_val_lt (f : function_t) : f.val < 2 := by
  cases f <;> decide

theorem air_mode_val_lt (m : air_mode_t) : m.val < 8 := by
  cases m <;> decide

theorem fan_speed_val_lt (f : fan_speed_t) : f.val < 4 := by
  cases f <;> decide

/-- The word of `buildFrame` as a sum of the shifted fields. -/
theorem buildFrame_eq (func : function_t) (mode : air_mode_t) (fan : fan_speed_t)
    (temp : Nat) :
    buildFrame func mode fan temp
      = func.val + 2 * mode.val + 16 * fan.val + 512 * (temp % 256) := by
  have h1 := function_val_lt func
  have h2 := air_mode_val_lt mode
  have h3 := fan_speed_val_lt fan
  simp only [buildFrame, infrared_frame_t.bits, infrared_frame_t.zeroed]
  rw [Nat.mod_eq_of_lt h1, Nat.mod_eq_of_lt h2, Nat.mod_eq_of_lt h3]
  omega

/-- The result of `encodeTemperature` fits the 8-bit field. -/
theorem encodeTemperature_lt (temp : Int) : encodeTemperature temp < 256 := by
  unfold encodeTemperature
  omega

/-- On the valid range the temperature code is `4 * t - 60`, no wrap. -/
theorem encodeTemperature_valid (t : Nat) (h1 : 16 ≤ t) (h2 : t ≤ 30) :
    encodeTemperature (t : Int) = 4 * t - 60 := by
  unfold encodeTemperature
  omega

theorem encodeCommand_eq (func : function_t) (mode : air_mode_t) (fanReq : fan_speed_t)
    (t : Nat) :
    encodeCommand func mode fanReq t
      = func.val + 2 * mode.val + 16 * (storedFan mode fanReq).val
        + 512 * encodeTemperature (t : Int) := by
  simp only [encodeCommand, storedFan, buildFrame_eq]
  rw [Nat.mod_eq_of_lt (encodeTemperature_lt _)]

theorem shiftRight_and_eq (w k n : Nat) :
    (w >>> k) &&& (2 ^ n - 1) = (w / 2 ^ k) % 2 ^ n := by
  rw [Nat.shiftRight_eq_div_pow, Nat.and_pow_two_sub_one_eq_mod]

theorem field_temp (w : Nat) : (w >>> 9) &&& 0xFF = (w / 512) % 256 := by
  have h := shiftRight_and_eq w 9 8
  norm_num at h
  exact h

theorem field_mode (w : Nat) : (w >>> 1) &&& 0b111 = (w / 2) % 8 := by
  have h := shiftRight_and_eq w 1 3
  norm_num at h
  exact h

theorem field_fan (w : Nat) : (w >>> 4) &&& 0b11 = (w / 16) % 4 := by
  have h := shiftRight_and_eq w 4 2
  norm_num at h
  exact h

theorem field_reserved1 (w : Nat) : (w >>> 6) &&& 0b111 = (w / 64) % 8 := by
  have h := shiftRight_and_eq w 6 3
  norm_num at h
  exact h

/-- Every word of `encodeCommand` is below `2 ^ 17`. -/
theorem encodeCommand_lt (func : function_t) (mode : air_mode_t) (fanReq : fan_speed_t)
    (t : Nat) : encodeCommand func mode fanReq t < 131072 := by
  rw [encodeCommand_eq]
  have h1 := function_val_lt func
  have h2 := air_mode_val_lt mode
  have h3 := fan_speed_val_lt (storedFan mode fanReq)
  have h4 := encodeTemperature_lt (t : Int)
  omega

/-- The fan field of every word of `encodeCommand`. -/
theorem encodeCommand_fan (func : function_t) (mode : air_mode_t) (fanReq : fan_speed_t)
    (t : Nat) :
    (encodeCommand func mode fanReq t >>> 4) &&& 0b11 = (storedFan mode fanReq).val := by
  rw [field_fan, encodeCommand_eq]
  have h1 := function_val_lt func
  have h2 := air_mode_val_lt mode
  have h3 := fan_speed_val_lt (storedFan mode fanReq)
  omega

/-- The mode field of every word of `encodeCommand`. -/
theorem encodeCommand_mode (func : function_t) (mode : air_mode_t) (fanReq : fan_speed_t)
    (t : Nat) :
    (encodeCommand func mode fanReq t >>> 1) &&& 0b111 = mode.val := by
  rw [field_mode, encodeCommand_eq]
  have h1 := function_val_lt func
  have h2 := air_mode_val_lt mode
  have h3 := fan_speed_val_lt (storedFan mode fanReq)
  omega

/-! ## What `main` sends -/

theorem mainSend_sent (initOk : Bool) (func : function_t) (mode : air_mode_t)
    (fan : fan_speed_t) (temp w : Nat) (tr : List Event)
    (h : mainSend initOk func mode fan temp = .sent w tr) :
    w = buildFrame func mode fan temp ∧ tr = setupPWM ++ transmit w := by
  unfold mainSend at h
  split at h
  · cases h
  · simp only [Outcome.sent.injEq] at h
    obtain ⟨h1, h2⟩ := h
    subst h1
    exact ⟨rfl, h2.symm⟩

/-- The statement `return usage(argv[0]);` reads `argv[0]` only; it ends with
the usage error, or with a fault when `argv` is empty. -/
theorem returnUsage_eq (argv : List (List Char)) :
    returnUsage argv
      = { reads := [0], outcome := if argv = [] then .fault else .usage } := by
  cases argv with
  | nil => simp [returnUsage, withArg]
  | cons a as => simp [returnUsage, withArg, usage, Run.done]

theorem returnUsage_ne_sent (argv : List (List Char)) (w : Nat) (tr : List Event) :
    (returnUsage argv).outcome ≠ .sent w tr := by
  rw [returnUsage_eq]
  dsimp only
  split <;> simp

/-- Whenever `mainBody` transmits, the word is that of `encodeCommand` for some
function, mode, fan speed and a temperature byte in the accepted range. -/
theorem mainBody_sent (longMax : Nat) (initOk : Bool) (argv : List (List Char))
    (w : Nat) (tr : List Event) (h : (mainBody longMax initOk argv).outcome = .sent w tr) :
    ∃ func mode fanReq t, TEMP_MIN_C ≤ t ∧ t ≤ TEMP_MAX_C
      ∧ w = encodeCommand func mode fanReq t ∧ tr = setupPWM ++ transmit w := by
  unfold mainBody at h
  simp only [withArg] at h
  cases e1 : argv[1]? with
  | none => simp [e1] at h
  | some a1 =>
  simp only [e1] at h
  cases e2 : parseFunction a1 with
  | none =>
    simp only [e2] at h
    exact absurd h (returnUsage_ne_sent _ _ _)
  | some func =>
  simp only [e2] at h
  cases e3 : argv[2]? with
  | none => simp [e3] at h
  | some a2 =>
  simp only [e3] at h
  cases e4 : parseMode a2 with
  | none =>
    simp only [e4] at h
    exact absurd h (returnUsage_ne_sent _ _ _)
  | some mode =>
  simp only [e4] at h
  cases e5 : argv[3]? with
  | none => simp [e5] at h
  | some a3 =>
  simp only [e5] at h
  split at h
  · exact absurd h (returnUsage_ne_sent _ _ _)
  split at h
  · simp [Run.done] at h
  rename_i _ hrange
  have hr : TEMP_MIN_C ≤ ((strtol longMax a3).1 % 256).toNat
      ∧ ((strtol longMax a3).1 % 256).toNat ≤ TEMP_MAX_C := by
    constructor <;> omega
  split at h
  · rename_i hm
    obtain ⟨h1, h2⟩ := mainSend_sent _ _ _ _ _ _ _ h
    refine ⟨func, mode, .F_LOW, _, hr.1, hr.2, ?_, h2⟩
    rw [h1]
    simp [encodeCommand, hm]
  · rename_i hm
    cases e6 : argv[4]? with
    | none => simp [e6] at h
    | some a4 =>
    simp only [e6] at h
    cases e7 : parseFan a4 with
    | none =>
      simp only [e7] at h
      exact absurd h (returnUsage_ne_sent _ _ _)
    | some fan =>
    simp only [e7] at h
    obtain ⟨h1, h2⟩ := mainSend_sent _ _ _ _ _ _ _ h
    refine ⟨func, mode, fan, _, hr.1, hr.2, ?_, h2⟩
    rw [h1]
    simp [encodeCommand, hm]

/-- Whenever `main` transmits, the word is that of `encodeCommand` for some
function, mode, fan speed and a temperature byte in the accepted range. -/
theorem main_sent (longMax : Nat) (initOk : Bool) (argv : List (List Char))
    (w : Nat) (tr : List Event) (h : main longMax initOk argv = .sent w tr) :
    ∃ func mode fanReq t, TEMP_MIN_C ≤ t ∧ t ≤ TEMP_MAX_C
      ∧ w = encodeCommand func mode fanReq t ∧ tr = setupPWM ++ transmit w := by
  unfold main mainRun at h
  simp only [withArg] at h
  split at h
  · cases e1 : argv[2]? with
    | none => simp [e1] at h
    | some a2 =>
      simp only [e1] at h
      split at h
      · exact absurd h (returnUsage_ne_sent _ _ _)
      · exact mainBody_sent _ _ _ _ _ h
  · split at h
    · exact absurd h (returnUsage_ne_sent _ _ _)
    · exact mainBody_sent _ _ _ _ _ h

/-! ## Bit-level helpers -/

/-- Bits at or above position 17 of a word below `2 ^ 17` are clear. -/
theorem testBit_high (w i : Nat) (hw : w < 131072) (hi : 17 ≤ i) : w.testBit i = false := by
  apply Nat.testBit_lt_two_pow
  calc w < 2 ^ 17 := by norm_num; exact hw
    _ ≤ 2 ^ i := Nat.pow_le_pow_right (by decide) hi

/-- Two words with the same residue modulo 512 agree on bits 0 to 8. -/
theorem testBit_low (w1 w2 i : Nat) (h : w1 % 512 = w2 % 512) (hi : i < 9) :
    w1.testBit i = w2.testBit i := by
  have e1 := Nat.testBit_mod_two_pow w1 9 i
  have e2 := Nat.testBit_mod_two_pow w2 9 i
  simp only [hi, decide_True, Bool.true_and] at e1 e2
  norm_num at e1 e2
  rw [← e1, ← e2, h]

/-- A word below `2 ^ 17` whose bits 6 to 8 are clear has no bit in common
with the reserved-bit mask. -/
theorem and_reserved_mask (w : Nat) (hw : w < 131072) (hr : (w / 64) % 8 = 0) :
    w &&& 0xFFFE01C0 = 0 := by
  apply Nat.eq_of_testBit_eq
  intro i
  rw [Nat.testBit_and, Nat.zero_testBit]
  by_cases hi : 17 ≤ i
  · rw [testBit_high w i hw hi]
    rfl
  · have hi2 : i < 17 := by omega
    have h6 : w.testBit 6 = false := by
      rw [Nat.testBit_to_div_mod]
      simp only [decide_eq_false_iff_not]
      omega
    have h7 : w.testBit 7 = false := by
      rw [Nat.testBit_to_div_mod]
      simp only [decide_eq_false_iff_not]
      omega
    have h8 : w.testBit 8 = false := by
      rw [Nat.testBit_to_div_mod]
      simp only [decide_eq_false_iff_not]
      omega
    interval_cases i <;> first | (simp only [h6, h7, h8]; rfl) | (rw [Bool.and_eq_false_iff]; right; decide)

/-! ## The frame encoder: claims C1 to C7 -/

/-- C1: for every command with temperature `t` in [16,30], the 8-bit field at
bits 9-16 of the encoded word equals `4 * t - 60` exactly; the value lies
between 4 and 60, and it is the unwrapped integer `4 * t - 60` (no 8-bit
wrap-around in `encodeTemperature`). -/
theorem C1_temperature_field (func : function_t) (mode : air_mode_t)
    (fanReq : fan_speed_t) (t : Nat) (h1 : 16 ≤ t) (h2 : t ≤ 30) :
    (encodeCommand func mode fanReq t >>> 9) &&& 0xFF = 4 * t - 60
      ∧ 4 ≤ 4 * t - 60 ∧ 4 * t - 60 ≤ 60
      ∧ (encodeTemperature (t : Int) : Int) = 4 * (t : Int) - 60 := by
  have hv := encodeTemperature_valid t h1 h2
  refine ⟨?_, by omega, by omega, by omega⟩
  rw [field_temp, encodeCommand_eq, hv]
  have h1 := function_val_lt func
  have h2 := air_mode_val_lt mode
  have h3 := fan_speed_val_lt (storedFan mode fanReq)
  omega

/-- Witness of C1 at the two ends of the range: 16 degrees gives the field
value 4 and 30 degrees gives 60. -/
theorem C1_temperature_field_witness :
    (encodeCommand .POWER .COOL .F_AUTO 16 >>> 9) &&& 0xFF = 4
      ∧ (encodeCommand .SETTING .HEAT .F_LOW 30 >>> 9) &&& 0xFF = 60 :=
  ⟨(C1_temperature_field .POWER .COOL .F_AUTO 16 (by decide) (by decide)).1,
   (C1_temperature_field .SETTING .HEAT .F_LOW 30 (by decide) (by decide)).1⟩

/-- C2: for every command, the 3-bit field at bits 1-3 of the encoded word is
the fixed code of the mode: COOL=0b100, HEAT=0b010, RECYCLE=0b110, WATER=0b001,
FAN=0b101. -/
theorem C2_mode_field (func : function_t) (fanReq : fan_speed_t) (t : Nat) :
    (encodeCommand func .COOL fanReq t >>> 1) &&& 0b111 = 0b100
      ∧ (encodeCommand func .HEAT fanReq t >>> 1) &&& 0b111 = 0b010
      ∧ (encodeCommand func .RECYCLE fanReq t >>> 1) &&& 0b111 = 0b110
      ∧ (encodeCommand func .WATER fanReq t >>> 1) &&& 0b111 = 0b001
      ∧ (encodeCommand func .FAN fanReq t >>> 1) &&& 0b111 = 0b101 := by
  simp only [encodeCommand_mode]
  exact ⟨rfl, rfl, rfl, rfl, rfl⟩

/-- C3, as stated, fails: for POWER, COOL, 22 degrees the fan field
`(word >> 4) & 0b11` is 0b10 for MED and 0b01 for HI, not the listed 0b01 and
0b10. -/
theorem C3_counterexample :
    air_mode_t.COOL ≠ air_mode_t.WATER
      ∧ (encodeCommand .POWER .COOL .F_MED 22 >>> 4) &&& 0b11 = 0b10
      ∧ (encodeCommand .POWER .COOL .F_MED 22 >>> 4) &&& 0b11 ≠ specFanCode .F_MED
      ∧ (encodeCommand .POWER .COOL .F_HI 22 >>> 4) &&& 0b11 = 0b01
      ∧ (encodeCommand .POWER .COOL .F_HI 22 >>> 4) &&& 0b11 ≠ specFanCode .F_HI := by
  decide

/-- C3, amended: for every command whose mode is not WATER, the field
`(word >> 4) & 0b11` (bit 4 least significant) is the enumerator value of the
requested fan speed, LOW=0b00, MED=0b10, HI=0b01, AUTO=0b11; the listed
patterns 00, 01, 10, 11 are these bits in transmission order, bit 4 first and
bit 5 second. -/
theorem C3_fan_field (func : function_t) (mode : air_mode_t) (fanReq : fan_speed_t)
    (t : Nat) (hm : mode ≠ air_mode_t.WATER) :
    (encodeCommand func mode fanReq t >>> 4) &&& 0b11
        = (match fanReq with
           | .F_LOW => 0b00
           | .F_MED => 0b10
           | .F_HI => 0b01
           | .F_AUTO => 0b11)
      ∧ (encodeCommand func mode fanReq t).testBit 4 = (specFanCode fanReq).testBit 1
      ∧ (encodeCommand func mode fanReq t).testBit 5 = (specFanCode fanReq).testBit 0 := by
  have hs : storedFan mode fanReq = fanReq := by simp [storedFan, hm]
  have hf := encodeCommand_fan func mode fanReq t
  rw [hs, field_fan] at hf
  refine ⟨?_, ?_, ?_⟩
  · rw [field_fan, hf]
    cases fanReq <;> rfl
  · rw [Nat.testBit_to_div_mod]
    cases fanReq <;> simp [fan_speed_t.val, specFanCode, Nat.testBit] at hf ⊢ <;> omega
  · rw [Nat.testBit_to_div_mod]
    cases fanReq <;> simp [fan_speed_t.val, specFanCode, Nat.testBit] at hf ⊢ <;> omega

/-- Witness of the amended C3: SETTING, HEAT, MED at 20 degrees. -/
theorem C3_fan_field_witness :
    (encodeCommand .SETTING .HEAT .F_MED 20 >>> 4) &&& 0b11 = 0b10 :=
  (C3_fan_field .SETTING .HEAT .F_MED 20 (by decide)).1

/-- C4: WATER-mode invariant.  For every command with mode WATER and every
requested fan speed the encoded word has bits 4-5 equal to 00; `main` gives
the same outcome for any two fan arguments when the mode argument selects
WATER; and every word `main` transmits whose bits 1-3 equal WATER's code
0b001 has `(word >> 4) & 0b11 = 0`. -/
theorem C4_water_fan_low :
    (∀ (func : function_t) (fanReq : fan_speed_t) (t : Nat),
        (encodeCommand func .WATER fanReq t >>> 4) &&& 0b11 = 0)
      ∧ (∀ (longMax : Nat) (initOk : Bool) (a0 a1 a2 a3 a4 b4 : List Char),
          parseMode a2 = some .WATER →
          main longMax initOk [a0, a1, a2, a3, a4]
            = main longMax initOk [a0, a1, a2, a3, b4])
      ∧ (∀ (longMax : Nat) (initOk : Bool) (argv : List (List Char)) (w : Nat)
          (tr : List Event),
          main longMax initOk argv = .sent w tr →
          (w >>> 1) &&& 0b111 = 0b001 → (w >>> 4) &&& 0b11 = 0) := by
  refine ⟨?_, ?_, ?_⟩
  · intro func fanReq t
    rw [encodeCommand_fan]
    rfl
  · intro longMax initOk a0 a1 a2 a3 a4 b4 hm
    simp [main, mainRun, mainBody, withArg, returnUsage, hm]
  · intro longMax initOk argv w tr h hmode
    obtain ⟨func, mode, fanReq, t, -, -, hw, -⟩ := main_sent _ _ _ _ _ h
    subst hw
    rw [encodeCommand_mode] at hmode
    have hm : mode = .WATER := by
      cases mode <;> simp [air_mode_t.val] at hmode
      rfl
    rw [encodeCommand_fan, hm]
    rfl

/-- Witness of C4: the arguments `power droplet 22 auto` make `main` transmit
the word 14339, whose mode bits are WATER's code and whose fan bits are 00. -/
theorem C4_water_fan_low_witness :
    main 2147483647 true (args ["airwell", "power", "droplet", "22", "auto"])
        = .sent 14339 (setupPWM ++ transmit 14339)
      ∧ (14339 >>> 1) &&& 0b111 = 0b001
      ∧ (14339 >>> 4) &&& 0b11 = 0 :=
  ⟨rfl, rfl,
   C4_water_fan_low.2.2 2147483647 true
     (args ["airwell", "power", "droplet", "22", "auto"]) 14339
     (setupPWM ++ transmit 14339) rfl rfl⟩

/-- C5: for every command (any function, mode, fan speed and temperature byte,
in particular every temperature in [16,30]) the reserved bits of the encoded
word are zero: bits 6-8 are 0 and bits 17-31 are 0, that is
`word & 0xFFFE01C0 = 0`. -/
theorem C5_reserved_zero (func : function_t) (mode : air_mode_t) (fanReq : fan_speed_t)
    (t : Nat) :
    encodeCommand func mode fanReq t &&& 0xFFFE01C0 = 0
      ∧ (encodeCommand func mode fanReq t >>> 6) &&& 0b111 = 0
      ∧ encodeCommand func mode fanReq t >>> 17 = 0 := by
  have hlt := encodeCommand_lt func mode fanReq t
  have hr : (encodeCommand func mode fanReq t / 64) % 8 = 0 := by
    rw [encodeCommand_eq]
    have h1 := function_val_lt func
    have h2 := air_mode_val_lt mode
    have h3 := fan_speed_val_lt (storedFan mode fanReq)
    omega
  refine ⟨and_reserved_mask _ hlt hr, ?_, ?_⟩
  · rw [field_reserved1, hr]
  · rw [Nat.shiftRight_eq_div_pow]
    exact Nat.div_eq_of_lt (by norm_num; exact hlt)

/-- C6: field isolation.  For every function, mode and fan speed and every two
temperatures (in particular any two in [16,30]), the two encoded words agree
on every bit outside bits 9-16: `(word1 XOR word2) & ~(0xFF << 9) = 0` on 32
bits. -/
theorem C6_temperature_isolation (func : function_t) (mode : air_mode_t)
    (fanReq : fan_speed_t) (t1 t2 : Nat) :
    (encodeCommand func mode fanReq t1 ^^^ encodeCommand func mode fanReq t2)
        &&& (0xFFFFFFFF - (0xFF <<< 9)) = 0 := by
  have hlt1 := encodeCommand_lt func mode fanReq t1
  have hlt2 := encodeCommand_lt func mode fanReq t2
  have hmod : encodeCommand func mode fanReq t1 % 512
      = encodeCommand func mode fanReq t2 % 512 := by
    rw [encodeCommand_eq, encodeCommand_eq]
    omega
  apply Nat.eq_of_testBit_eq
  intro i
  rw [Nat.testBit_and, Nat.testBit_xor, Nat.zero_testBit]
  by_cases hi : 17 ≤ i
  · rw [testBit_high _ i hlt1 hi, testBit_high _ i hlt2 hi]
    rfl
  · by_cases hi9 : i < 9
    · rw [testBit_low _ _ i hmod hi9]
      simp
    · have hi17 : i < 17 := by omega
      have hi9 : 9 ≤ i := by omega
      rw [Bool.and_eq_false_iff]
      right
      interval_cases i <;> decide

/-- C7: the command POWER, COOL, AUTO, 22 degrees encodes to the word with
bit 0 = 1, bits 1-3 = 0b100, bits 4-5 = 0b11, bits 9-16 = 28 and all reserved
bits 0, that is 0x00003839 = 14393; `main` transmits this word for the
arguments `power cool 22 auto`. -/
theorem C7_power_cool_auto_22 :
    encodeCommand .POWER .COOL .F_AUTO 22 = 0x00003839
      ∧ (0x00003839 : Nat) = 14393
      ∧ (encodeCommand .POWER .COOL .F_AUTO 22) &&& 1 = 1
      ∧ (encodeCommand .POWER .COOL .F_AUTO 22 >>> 1) &&& 0b111 = 0b100
      ∧ (encodeCommand .POWER .COOL .F_AUTO 22 >>> 4) &&& 0b11 = 0b11
      ∧ (encodeCommand .POWER .COOL .F_AUTO 22 >>> 9) &&& 0xFF = 28
      ∧ (encodeCommand .POWER .COOL .F_AUTO 22) &&& 0xFFFE01C0 = 0
      ∧ main 2147483647 true (args ["airwell", "power", "cool", "22", "auto"])
          = .sent 0x00003839 (setupPWM ++ transmit 0x00003839) := by
  refine ⟨by decide, by decide, by decide, by decide, by decide, by decide, by decide, rfl⟩

/-! ## The modulator: helper lemmas -/

theorem modulateLoop_length (n bits : Nat) : (modulateLoop n bits).length = 4 * n := by
  induction n generalizing bits with
  | zero => rfl
  | succ n ih =>
    simp only [modulateLoop, List.length_append, ih]
    split <;> simp [outBitHigh, outBitLow] <;> omega

theorem and_one_ne_zero_iff (bits : Nat) : bits &&& 0x00000001 ≠ 0 ↔ bits.testBit 0 = true := by
  rw [Nat.testBit_zero, Nat.and_one_is_mod, decide_eq_true_eq]
  omega

/-- The symbol at position `i` of the data loop. -/
theorem modulateLoop_symbol (n bits i : Nat) (hi : i < n) :
    ((modulateLoop n bits).drop (4 * i)).take 4
      = if bits.testBit i then outBitHigh else outBitLow := by
  induction n generalizing bits i with
  | zero => omega
  | succ n ih =>
    cases i with
    | zero =>
      simp only [modulateLoop, Nat.mul_zero, List.drop_zero, and_one_ne_zero_iff]
      split <;> simp [outBitHigh, outBitLow]
    | succ i =>
      have hlen : (if bits &&& 0x00000001 ≠ 0 then outBitHigh else outBitLow).length = 4 := by
        split <;> rfl
      have hdrop : (modulateLoop (n + 1) bits).drop (4 * (i + 1))
          = (modulateLoop n (bits >>> 1)).drop (4 * i) := by
        rw [modulateLoop, show 4 * (i + 1) = 4 + 4 * i by omega, ← List.drop_drop,
          List.drop_left' hlen]
      rw [hdrop, ih (bits >>> 1) i (by omega), Nat.testBit_shiftRight, Nat.add_comm 1 i]

theorem modulateLoop_tokens (n bits : Nat) :
    modulateLoop n bits = renderTokens ((dataBits n bits).map Token.symbol) := by
  induction n generalizing bits with
  | zero => rfl
  | succ n ih =>
    simp only [modulateLoop, dataBits, List.map_cons, renderTokens, ih, and_one_ne_zero_iff]
    cases bits.testBit 0 <;> rfl

theorem renderTokens_append (a b : List Token) :
    renderTokens (a ++ b) = renderTokens a ++ renderTokens b := by
  induction a with
  | nil => rfl
  | cons t ts ih => simp [renderTokens, ih]

theorem tokenPhases_append (a b : List Token) :
    tokenPhases (a ++ b) = tokenPhases a ++ tokenPhases b := by
  induction a with
  | nil => rfl
  | cons t ts ih => simp [tokenPhases, ih]

/-- One call of `modulateIR` issues the events of the frame's protocol elements. -/
theorem modulateIR_tokens (frame : Nat) :
    modulateIR frame = renderTokens (frameTokens frame) := by
  have htrail : renderTokens [Token.symbol true, Token.symbol false]
      = outBitHigh ++ outBitLow := rfl
  unfold modulateIR frameTokens
  rw [renderTokens, renderTokens_append, htrail]
  simp only [modulateLoop_tokens, Token.events, List.append_assoc]

theorem transmit_tokens (frame : Nat) :
    transmit frame = renderTokens (transmitTokens frame) ++ [.pwm_set_mode false] := by
  have hstop : renderTokens [Token.stop] = [.pwm_set_mode true, .delay 4000] := rfl
  unfold transmit transmitTokens
  rw [renderTokens_append, renderTokens_append, renderTokens_append, hstop,
    modulateIR_tokens]
  simp only [List.append_assoc, List.cons_append, List.nil_append]

theorem timedPhases_render (toks : List Token) :
    timedPhases (renderTokens toks ++ [.pwm_set_mode false]) = tokenPhases toks := by
  induction toks with
  | nil => rfl
  | cons t ts ih =>
    cases t with
    | preamble => simp [renderTokens, tokenPhases, Token.events, Token.phases, outPreamble,
        timedPhases, ih]
    | symbol b => cases b <;> simp [renderTokens, tokenPhases, Token.events, Token.phases,
        outBitHigh, outBitLow, timedPhases, ih]
    | stop => simp [renderTokens, tokenPhases, Token.events, Token.phases, timedPhases, ih]

theorem afterPhases_render (toks : List Token) :
    afterPhases (renderTokens toks ++ [.pwm_set_mode false]) = [.pwm_set_mode false] := by
  induction toks with
  | nil => rfl
  | cons t ts ih =>
    cases t with
    | preamble => simp [renderTokens, Token.events, outPreamble, afterPhases, ih]
    | symbol b => cases b <;> simp [renderTokens, Token.events, outBitHigh, outBitLow,
        afterPhases, ih]
    | stop => simp [renderTokens, Token.events, afterPhases, ih]

theorem tokens_tokenPhases (toks : List Token) : tokens (tokenPhases toks) = some toks := by
  induction toks with
  | nil => rfl
  | cons t ts ih =>
    cases t with
    | preamble =>
      simp [tokenPhases, Token.phases, tokens, ih]
    | symbol b =>
      cases b <;> simp [tokenPhases, Token.phases, tokens, ih, TIME_MANCHESTER_TRANSITION_US,
        TIME_PREAMBLE_HIGH_US]
    | stop =>
      cases hts : tokenPhases ts with
      | nil =>
        rw [hts] at ih
        simp only [tokens, Option.some.injEq] at ih
        simp [tokenPhases, Token.phases, tokens, hts, ← ih]
      | cons q rest =>
        rw [hts] at ih
        simp [tokenPhases, Token.phases, tokens, hts, ih, TIME_MANCHESTER_TRANSITION_US,
          TIME_PREAMBLE_HIGH_US]

theorem dataBits_length (n bits : Nat) : (dataBits n bits).length = n := by
  induction n generalizing bits with
  | zero => rfl
  | succ n ih => simp [dataBits, ih]

theorem symbols_count (l : List Bool) :
    (l.map Token.symbol).count .preamble = 0
      ∧ (l.map Token.symbol).count .stop = 0
      ∧ (l.map Token.symbol).countP Token.isSymbol = l.length := by
  induction l with
  | nil => simp
  | cons b bs ih =>
    obtain ⟨h1, h2, h3⟩ := ih
    simp [List.count_cons, List.countP_cons, Token.isSymbol, h1, h2, h3]

/-- One frame repetition is 1 preamble and 34 symbols. -/
theorem frameTokens_count (frame : Nat) :
    (frameTokens frame).count .preamble = 1
      ∧ (frameTokens frame).count .stop = 0
      ∧ (frameTokens frame).countP Token.isSymbol = 34
      ∧ (frameTokens frame).length = 35 := by
  obtain ⟨h1, h2, h3⟩ := symbols_count (dataBits 32 (frame % 4294967296))
  have h4 := dataBits_length 32 (frame % 4294967296)
  unfold frameTokens
  simp [List.count_cons, List.countP_cons, List.count_append, List.countP_append,
    Token.isSymbol, h1, h2, h3, h4]

/-- A full transmission is 3 preambles, 102 symbols and 1 stop pulse. -/
theorem transmitTokens_count (frame : Nat) :
    (transmitTokens frame).count .preamble = 3
      ∧ (transmitTokens frame).count .stop = 1
      ∧ (transmitTokens frame).countP Token.isSymbol = 102
      ∧ (transmitTokens frame).length = 106 := by
  obtain ⟨h1, h2, h3, h4⟩ := frameTokens_count frame
  unfold transmitTokens
  simp [List.count_cons, List.countP_cons, List.count_append, List.countP_append,
    Token.isSymbol, h1, h2, h3, h4]

theorem tokenPhases_length (toks : List Token) :
    (tokenPhases toks).length + toks.count .stop = 2 * toks.length := by
  induction toks with
  | nil => rfl
  | cons t ts ih =>
    cases t with
    | preamble => simp [tokenPhases, Token.phases, List.count_cons]; omega
    | symbol b => cases b <;> simp [tokenPhases, Token.phases, List.count_cons] <;> omega
    | stop => simp [tokenPhases, Token.phases, List.count_cons]; omega

theorem renderTokens_commands (toks : List Token) :
    (renderTokens toks).countP Event.isCarrierCommand + toks.count .stop
      = 2 * toks.length := by
  induction toks with
  | nil => rfl
  | cons t ts ih =>
    cases t with
    | preamble =>
      simp [renderTokens, Token.events, outPreamble, List.count_cons, List.countP_cons,
        Event.isCarrierCommand]
      omega
    | symbol b =>
      cases b <;>
        simp [renderTokens, Token.events, outBitHigh, outBitLow, List.count_cons,
          List.countP_cons, Event.isCarrierCommand] <;> omega
    | stop =>
      simp [renderTokens, Token.events, List.count_cons, List.countP_cons,
        Event.isCarrierCommand]
      omega

/-! ## The modulator: claims C8 to C10 -/

/-- C8: for every frame and every `i` in 0..31, the `i`-th data symbol emitted
by `modulateIR` (counting after the four preamble events) represents bit `i` of
the frame, least-significant bit first: if the bit is 1 the symbol is carrier
OFF for 950 us then ON for 950 us, if it is 0 the symbol is carrier ON for
950 us then OFF for 950 us. -/
theorem C8_data_symbols (frame i : Nat) (hi : i < 32) :
    ((modulateIR frame).drop (4 + 4 * i)).take 4
      = if frame.testBit i then
          [.pwm_set_mode false, .delay 950, .pwm_set_mode true, .delay 950]
        else
          [.pwm_set_mode true, .delay 950, .pwm_set_mode false, .delay 950] := by
  have hpre : outPreamble.length = 4 := rfl
  have hbit : (frame % 4294967296).testBit i = frame.testBit i := by
    have h := Nat.testBit_mod_two_pow frame 32 i
    norm_num at h
    rw [h]
    simp [hi]
  have hdrop : (modulateIR frame).drop (4 + 4 * i)
      = (modulateLoop 32 (frame % 4294967296) ++ (outBitHigh ++ outBitLow)).drop (4 * i) := by
    unfold modulateIR
    simp only [List.append_assoc]
    rw [← List.drop_drop, List.drop_left' hpre]
  have hlen := modulateLoop_length 32 (frame % 4294967296)
  rw [hdrop, List.drop_append_of_le_length (by omega),
    List.take_append_of_le_length (by rw [List.length_drop]; omega),
    modulateLoop_symbol 32 _ i hi, hbit]
  rfl

/-- Witness of C8: in the frame 0x3839, bit 3 is 1 and is sent as OFF then ON. -/
theorem C8_data_symbols_witness :
    Nat.testBit 0x3839 3 = true
      ∧ ((modulateIR 0x3839).drop (4 + 4 * 3)).take 4
          = [.pwm_set_mode false, .delay 950, .pwm_set_mode true, .delay 950] :=
  ⟨by decide, C8_data_symbols 0x3839 3 (by decide)⟩

/-- C9: for every frame, the events of one `modulateIR` call start with the
preamble (carrier ON for 3050 us, then OFF for 2900 us) and end, after the 32
data symbols, with exactly two trailer symbols that do not depend on the frame:
first the bit-1 symbol (OFF 950 us, ON 950 us), then the bit-0 symbol (ON
950 us, OFF 950 us). -/
theorem C9_preamble_trailer (frame : Nat) :
    (modulateIR frame).take 4
        = [.pwm_set_mode true, .delay 3050, .pwm_set_mode false, .delay 2900]
      ∧ (modulateIR frame).length = 4 + 4 * 32 + 8
      ∧ (modulateIR frame).drop (4 + 4 * 32)
          = [.pwm_set_mode false, .delay 950, .pwm_set_mode true, .delay 950,
             .pwm_set_mode true, .delay 950, .pwm_set_mode false, .delay 950] := by
  have hlen := modulateLoop_length 32 (frame % 4294967296)
  have hpre : (outPreamble ++ modulateLoop 32 (frame % 4294967296)).length = 4 + 4 * 32 := by
    rw [List.length_append, hlen]
    rfl
  refine ⟨?_, ?_, ?_⟩
  · unfold modulateIR
    simp only [List.append_assoc]
    rw [List.take_left' (by rfl)]
    rfl
  · unfold modulateIR
    simp only [List.length_append, hlen]
    rfl
  · unfold modulateIR
    simp only [List.append_assoc]
    rw [← List.append_assoc, List.drop_left' hpre]
    rfl

/-- C10: for every frame, one full transmission (three `modulateIR` calls and
the stop sequence) is exactly 3 x (2 + 2 x 34) + 1 = 211 timed carrier phases
followed by one last carrier-off command, 212 carrier commands in total; read
as protocol elements the timed phases are exactly 3 preambles, 3 x 34 = 102
two-phase 950 us symbols and 1 stop pulse. -/
theorem C10_transmission_counts (frame : Nat) :
    (timedPhases (transmit frame)).length = 3 * (2 + 2 * 34) + 1
      ∧ afterPhases (transmit frame) = [.pwm_set_mode false]
      ∧ (transmit frame).countP Event.isCarrierCommand = 212
      ∧ ∃ toks, tokens (timedPhases (transmit frame)) = some toks
          ∧ toks.count .preamble = 3
          ∧ toks.countP Token.isSymbol = 3 * 34
          ∧ toks.count .stop = 1
          ∧ toks.length = 3 + 3 * 34 + 1 := by
  obtain ⟨h1, h2, h3, h4⟩ := transmitTokens_count frame
  have hp := tokenPhases_length (transmitTokens frame)
  have hc := renderTokens_commands (transmitTokens frame)
  rw [transmit_tokens, timedPhases_render, afterPhases_render]
  refine ⟨by omega, rfl, ?_, transmitTokens frame, tokens_tokenPhases _, h1, h3, h2, h4⟩
  rw [List.countP_append]
  have hoff : List.countP Event.isCarrierCommand [Event.pwm_set_mode false] = 1 := rfl
  rw [hoff]
  omega

/-! ## The full transmission: helper lemmas -/

theorem modulateIR_length (frame : Nat) : (modulateIR frame).length = 140 := by
  unfold modulateIR
  simp only [List.length_append, modulateLoop_length]
  rfl

theorem timedPhases_render_append (toks : List Token) (rest : List Event) :
    timedPhases (renderTokens toks ++ rest) = tokenPhases toks ++ timedPhases rest := by
  induction toks with
  | nil => rfl
  | cons t ts ih =>
    cases t with
    | preamble => simp [renderTokens, tokenPhases, Token.events, Token.phases, outPreamble,
        timedPhases, ih]
    | symbol b => cases b <;> simp [renderTokens, tokenPhases, Token.events, Token.phases,
        outBitHigh, outBitLow, timedPhases, ih]
    | stop => simp [renderTokens, tokenPhases, Token.events, Token.phases, timedPhases, ih]

/-- The timed phases of one `modulateIR` call are those of its protocol elements. -/
theorem timedPhases_modulateIR (frame : Nat) :
    timedPhases (modulateIR frame) = tokenPhases (frameTokens frame) := by
  have h := timedPhases_render_append (frameTokens frame) []
  rw [List.append_nil] at h
  rw [modulateIR_tokens, h]
  exact List.append_nil _

theorem carrierAfter_append (s : Option Bool) (a b : List Event) :
    carrierAfter s (a ++ b) = carrierAfter (carrierAfter s a) b := by
  induction a generalizing s with
  | nil => rfl
  | cons e es ih =>
    cases e <;> simp [carrierAfter, ih]

/-! ## The full transmission: claims C11 and C12 -/

/-- C11: for every frame, the trace of a full transmission is F ++ F ++ F ++ stop
with F the trace of one `modulateIR(frame)` call: the three 140-event slices of
the trace are each equal to F, nothing lies between them, the timed phases are
three copies of those of F followed by the stop pulse, and every trace `main`
sends is the carrier set-up followed by such a transmission of the word it
built. -/
theorem C11_three_identical_repetitions (frame : Nat) :
    transmit frame
        = modulateIR frame ++ modulateIR frame ++ modulateIR frame
          ++ [.pwm_set_mode true, .delay 4000, .pwm_set_mode false]
      ∧ (transmit frame).take 140 = modulateIR frame
      ∧ ((transmit frame).drop 140).take 140 = modulateIR frame
      ∧ ((transmit frame).drop 280).take 140 = modulateIR frame
      ∧ timedPhases (transmit frame)
          = timedPhases (modulateIR frame) ++ timedPhases (modulateIR frame)
            ++ timedPhases (modulateIR frame) ++ [(true, 4000)]
      ∧ (∀ (longMax : Nat) (initOk : Bool) (argv : List (List Char)) (w : Nat)
          (tr : List Event), main longMax initOk argv = .sent w tr →
          tr = setupPWM ++ (modulateIR w ++ modulateIR w ++ modulateIR w
            ++ [.pwm_set_mode true, .delay 4000, .pwm_set_mode false])) := by
  have hlen := modulateIR_length frame
  have h2 : (modulateIR frame ++ modulateIR frame).length = 280 := by
    rw [List.length_append, hlen]
  refine ⟨rfl, ?_, ?_, ?_, ?_, ?_⟩
  · unfold transmit
    simp only [List.append_assoc]
    exact List.take_left' hlen
  · unfold transmit
    simp only [List.append_assoc]
    rw [List.drop_left' hlen]
    exact List.take_left' hlen
  · unfold transmit
    rw [List.append_assoc, List.drop_left' h2]
    exact List.take_left' hlen
  · rw [transmit_tokens, timedPhases_render, timedPhases_modulateIR]
    unfold transmitTokens
    simp only [tokenPhases_append]
    rfl
  · intro longMax initOk argv w tr h
    obtain ⟨_, _, _, _, _, _, _, htr⟩ := main_sent _ _ _ _ _ h
    exact htr

/-- C12: for every frame, after the third frame repetition the transmission
ends with carrier ON held for 4000 us and then a carrier OFF command; the last
event and the last carrier command of the transmission, and of every trace
`main` sends, is carrier OFF. -/
theorem C12_stop_pulse_then_off (frame : Nat) :
    (transmit frame).drop (3 * 140)
        = [.pwm_set_mode true, .delay 4000, .pwm_set_mode false]
      ∧ (transmit frame).getLast? = some (.pwm_set_mode false)
      ∧ (∀ s, carrierAfter s (transmit frame) = some false)
      ∧ (∀ (longMax : Nat) (initOk : Bool) (argv : List (List Char)) (w : Nat)
          (tr : List Event) (s : Option Bool), main longMax initOk argv = .sent w tr →
          tr.getLast? = some (.pwm_set_mode false) ∧ carrierAfter s tr = some false) := by
  have hlen := modulateIR_length frame
  have h3 : (modulateIR frame ++ modulateIR frame ++ modulateIR frame).length = 3 * 140 := by
    simp only [List.length_append, hlen]
  have hlast : ∀ (f : Nat), (transmit f).getLast? = some (.pwm_set_mode false) := by
    intro f
    rw [transmit_tokens]
    exact List.getLast?_concat _
  have hcar : ∀ (f : Nat) (s : Option Bool), carrierAfter s (transmit f) = some false := by
    intro f s
    rw [transmit_tokens, carrierAfter_append]
    rfl
  refine ⟨?_, hlast frame, hcar frame, ?_⟩
  · unfold transmit
    exact List.drop_left' h3
  · intro longMax initOk argv w tr s h
    obtain ⟨_, _, _, _, _, _, _, htr⟩ := main_sent _ _ _ _ _ h
    subst htr
    refine ⟨?_, ?_⟩
    · rw [List.getLast?_append, hlast w]
      rfl
    · rw [carrierAfter_append, hcar w]

/-! ## The busy-wait delay: claim C13 -/

theorem timerLoop_eq_some (reads : Nat → Nat) (start d fuel k0 k : Nat) :
    timerLoop reads start d fuel k0 = some k
      ↔ k0 ≤ k ∧ k < k0 + fuel ∧ (∀ j, k0 ≤ j → j < k → sub64 (reads j) start < d)
          ∧ d ≤ sub64 (reads k) start := by
  induction fuel generalizing k0 with
  | zero =>
    simp only [timerLoop, Nat.add_zero]
    constructor
    · intro h
      cases h
    · rintro ⟨h1, h2, -, -⟩
      omega
  | succ fuel ih =>
    rw [timerLoop]
    split
    · rename_i hlt
      rw [ih]
      constructor
      · rintro ⟨h1, h2, h3, h4⟩
        refine ⟨by omega, by omega, ?_, h4⟩
        intro j hj1 hj2
        by_cases hj : j = k0
        · rw [hj]
          exact hlt
        · exact h3 j (by omega) hj2
      · rintro ⟨h1, h2, h3, h4⟩
        have hne : k ≠ k0 := by
          intro h
          rw [h] at h4
          omega
        exact ⟨by omega, by omega, fun j hj1 hj2 => h3 j (by omega) hj2, h4⟩
    · rename_i hge
      constructor
      · intro h
        simp only [Option.some.injEq] at h
        subst h
        exact ⟨Nat.le_refl _, by omega, fun j hj1 hj2 => by omega, by omega⟩
      · rintro ⟨h1, h2, h3, h4⟩
        by_cases hk : k = k0
        · rw [hk]
        · have := h3 k0 (Nat.le_refl _) (by omega)
          omega

theorem sub64_wrap (t0 t : Nat) (h1 : t0 ≤ t) (h2 : t - t0 < UINT64_MOD) :
    sub64 (t % UINT64_MOD) (t0 % UINT64_MOD) = t - t0 := by
  unfold sub64
  unfold UINT64_MOD at *
  omega

/-- C13: with the timer a sequence of 64-bit readings and subtraction modulo
2^64, `system_timer_delay(d)` returns at poll `k` exactly when every earlier
poll `j` had `(reads j - start) mod 2^64 < d` and poll `k` has
`(reads k - start) mod 2^64 >= d` (given at least `k` polls of fuel).  When the
readings are a true time taken modulo 2^64 and the true elapsed time stays
below 2^64, it returns exactly at the first poll whose elapsed time is at
least `d`, also across a wrap of the raw counter, and so never earlier than
`d` microseconds after the start. -/
theorem C13_timer_delay (d : Nat) (hd : d < UINT64_MOD) :
    (∀ (reads : Nat → Nat) (fuel k : Nat),
        system_timer_delay reads d fuel = some k
          ↔ 1 ≤ k ∧ k ≤ fuel
            ∧ (∀ j, 1 ≤ j → j < k → sub64 (reads j) (reads 0) < d)
            ∧ d ≤ sub64 (reads k) (reads 0))
      ∧ (∀ (time : Nat → Nat) (fuel k : Nat),
          (∀ j, j ≤ k → time 0 ≤ time j ∧ time j - time 0 < UINT64_MOD) →
          (system_timer_delay (fun j => time j % UINT64_MOD) d fuel = some k
            ↔ 1 ≤ k ∧ k ≤ fuel
              ∧ (∀ j, 1 ≤ j → j < k → time j - time 0 < d)
              ∧ d ≤ time k - time 0)) := by
  have hraw : ∀ (reads : Nat → Nat) (fuel k : Nat),
      system_timer_delay reads d fuel = some k
        ↔ 1 ≤ k ∧ k ≤ fuel
          ∧ (∀ j, 1 ≤ j → j < k → sub64 (reads j) (reads 0) < d)
          ∧ d ≤ sub64 (reads k) (reads 0) := by
    intro reads fuel k
    have hs : ∀ a, sub64 a (reads 0 % UINT64_MOD) = sub64 a (reads 0) := by
      intro a
      unfold sub64
      rw [Nat.mod_mod]
    unfold system_timer_delay
    simp only [Nat.mod_eq_of_lt hd]
    rw [timerLoop_eq_some]
    simp only [hs]
    constructor
    · rintro ⟨h1, h2, h3, h4⟩
      exact ⟨h1, by omega, h3, h4⟩
    · rintro ⟨h1, h2, h3, h4⟩
      exact ⟨h1, by omega, h3, h4⟩
  refine ⟨hraw, ?_⟩
  intro time fuel k hel
  rw [hraw]
  have he : ∀ j, j ≤ k →
      sub64 (time j % UINT64_MOD) (time 0 % UINT64_MOD) = time j - time 0 :=
    fun j hj => sub64_wrap _ _ (hel j hj).1 (hel j hj).2
  constructor
  · rintro ⟨h1, h2, h3, h4⟩
    refine ⟨h1, h2, ?_, ?_⟩
    · intro j hj1 hj2
      have := h3 j hj1 hj2
      rw [he j (by omega)] at this
      exact this
    · rw [he k (Nat.le_refl _)] at h4
      exact h4
  · rintro ⟨h1, h2, h3, h4⟩
    refine ⟨h1, h2, ?_, ?_⟩
    · intro j hj1 hj2
      show sub64 (time j % UINT64_MOD) (time 0 % UINT64_MOD) < d
      rw [he j (by omega)]
      exact h3 j hj1 hj2
    · show d ≤ sub64 (time k % UINT64_MOD) (time 0 % UINT64_MOD)
      rw [he k (Nat.le_refl _)]
      exact h4

/-- Witness of C13: the counter starts 5 below 2^64 and advances 3 per poll, so
it wraps at poll 2; a delay of 7 returns at poll 3, 9 microseconds after the
start. -/
theorem C13_timer_delay_witness :
    system_timer_delay (fun j => (18446744073709551611 + 3 * j) % UINT64_MOD) 7 10
      = some 3 :=
  ((C13_timer_delay 7 (by decide)).2 (fun j => 18446744073709551611 + 3 * j) 10 3
    (by
      intro j hj
      unfold UINT64_MOD
      dsimp only
      constructor <;> omega)).mpr
    ⟨by decide, by decide, by
      intro j h1 h2
      omega, by decide⟩

/-! ## The temperature argument: claim C14 -/

/-- C14 fails on the code: the temperature arguments `272` and `-240` parse
completely as decimal integers outside [16,30], yet `main` stores them in a
`uint8_t` before the range check, where both become 16; it then builds the
word 2057 (the word of `16`), transmits it and returns 0. -/
theorem C14_out_of_range_accepted :
    main 2147483647 true (args ["airwell", "power", "cool", "272", "low"])
        = .sent 2057 (setupPWM ++ transmit 2057)
      ∧ main 2147483647 true (args ["airwell", "power", "cool", "-240", "low"])
        = .sent 2057 (setupPWM ++ transmit 2057)
      ∧ main 2147483647 true (args ["airwell", "power", "cool", "16", "low"])
        = .sent 2057 (setupPWM ++ transmit 2057)
      ∧ strtol 2147483647 "272".toList = (272, [])
      ∧ strtol 2147483647 "-240".toList = (-240, [])
      ∧ (main 2147483647 true (args ["airwell", "power", "cool", "272", "low"])).exitStatus
        = some 0
      ∧ 2057 = encodeCommand .POWER .COOL .F_LOW 16 :=
  ⟨rfl, rfl, rfl, by decide, by decide, rfl, by decide⟩

/-! ## Injectivity of the encoder: claim C15 -/

theorem function_val_inj (a b : function_t) (h : a.val = b.val) : a = b := by
  cases a <;> cases b <;> first | rfl | (exact absurd h (by decide))

theorem air_mode_val_inj (a b : air_mode_t) (h : a.val = b.val) : a = b := by
  cases a <;> cases b <;> first | rfl | (exact absurd h (by decide))

theorem fan_speed_val_inj (a b : fan_speed_t) (h : a.val = b.val) : a = b := by
  cases a <;> cases b <;> first | rfl | (exact absurd h (by decide))

/-- A fan speed that is already `F_LOW` in `WATER` mode is stored unchanged. -/
theorem storedFan_normalised (mode : air_mode_t) (fan : fan_speed_t)
    (h : mode = air_mode_t.WATER → fan = fan_speed_t.F_LOW) : storedFan mode fan = fan := by
  unfold storedFan
  split
  · rename_i hm
    exact (h hm).symm
  · rfl

/-- C15: encoding is injective on normalised valid commands: for two commands
with temperature in [16,30] and fan speed LOW whenever the mode is WATER, equal
encoded words imply equal function, mode, fan speed and temperature. -/
theorem C15_encoding_injective (f1 f2 : function_t) (m1 m2 : air_mode_t)
    (fan1 fan2 : fan_speed_t) (t1 t2 : Nat)
    (ht1 : 16 ≤ t1 ∧ t1 ≤ 30) (ht2 : 16 ≤ t2 ∧ t2 ≤ 30)
    (hn1 : m1 = air_mode_t.WATER → fan1 = fan_speed_t.F_LOW)
    (hn2 : m2 = air_mode_t.WATER → fan2 = fan_speed_t.F_LOW)
    (hw : encodeCommand f1 m1 fan1 t1 = encodeCommand f2 m2 fan2 t2) :
    f1 = f2 ∧ m1 = m2 ∧ fan1 = fan2 ∧ t1 = t2 := by
  rw [encodeCommand_eq, encodeCommand_eq, storedFan_normalised m1 fan1 hn1,
    storedFan_normalised m2 fan2 hn2, encodeTemperature_valid t1 ht1.1 ht1.2,
    encodeTemperature_valid t2 ht2.1 ht2.2] at hw
  have a1 := function_val_lt f1
  have a2 := function_val_lt f2
  have b1 := air_mode_val_lt m1
  have b2 := air_mode_val_lt m2
  have c1 := fan_speed_val_lt fan1
  have c2 := fan_speed_val_lt fan2
  refine ⟨function_val_inj _ _ (by omega), air_mode_val_inj _ _ (by omega),
    fan_speed_val_inj _ _ (by omega), by omega⟩

/-- Witness of C15 at POWER, COOL, AUTO, 22 degrees taken twice; and, read the
other way, COOL at 22 and at 23 degrees have different words. -/
theorem C15_encoding_injective_witness :
    (function_t.POWER = function_t.POWER ∧ air_mode_t.COOL = air_mode_t.COOL
        ∧ fan_speed_t.F_AUTO = fan_speed_t.F_AUTO ∧ 22 = 22)
      ∧ encodeCommand .POWER .COOL .F_AUTO 22 ≠ encodeCommand .POWER .COOL .F_AUTO 23 :=
  ⟨C15_encoding_injective .POWER .POWER .COOL .COOL .F_AUTO .F_AUTO 22 22
      (by decide) (by decide) (by decide) (by decide) rfl,
   by decide⟩

/-! ## Lossless modulation: claim C16 -/

theorem decodeBits_symbols (n bits : Nat) (rest : List (Bool × Nat)) :
    decodeBits n (tokenPhases ((dataBits n bits).map Token.symbol) ++ rest)
      = bits % 2 ^ n := by
  induction n generalizing bits with
  | zero => simp [decodeBits, Nat.mod_one]
  | succ n ih =>
    have hmod : bits % 2 ^ (n + 1) = bits % 2 + 2 * ((bits >>> 1) % 2 ^ n) := by
      rw [Nat.pow_succ', Nat.mod_mul, Nat.shiftRight_eq_div_pow, Nat.pow_one]
    rw [hmod, ← ih (bits >>> 1)]
    simp only [dataBits, List.map_cons, tokenPhases, Nat.testBit_zero]
    rcases Nat.mod_two_eq_zero_or_one bits with h | h
    · simp [h, Token.phases, decodeBits]
    · simp [h, Token.phases, decodeBits]

/-- Decoding the phases of `modulateIR(frame)` gives back the frame as a
32-bit value. -/
theorem decodeIR_modulateIR (frame : Nat) :
    decodeIR (timedPhases (modulateIR frame)) = frame % 4294967296 := by
  have hshape : tokenPhases (frameTokens frame)
      = [(true, 3050), (false, 2900)]
        ++ (tokenPhases ((dataBits 32 (frame % 4294967296)).map Token.symbol)
          ++ tokenPhases [.symbol true, .symbol false]) := by
    unfold frameTokens
    rw [tokenPhases, tokenPhases_append]
    rfl
  unfold decodeIR
  rw [timedPhases_modulateIR, hshape, List.drop_left' (by rfl), decodeBits_symbols]
  norm_num

/-- C16: modulation is lossless.  For every 32-bit frame, the decoder that
reads the first phase of each of the 32 data symbols (OFF first means 1, ON
first means 0) and assembles the bits least significant first recovers the
frame from the (carrier state, duration) sequence of `modulateIR`; hence two
32-bit frames with the same sequence are equal. -/
theorem C16_modulation_lossless (a b : Nat) (ha : a < 4294967296) (hb : b < 4294967296) :
    decodeIR (timedPhases (modulateIR a)) = a
      ∧ (timedPhases (modulateIR a) = timedPhases (modulateIR b) → a = b)
      ∧ (modulateIR a = modulateIR b → a = b) := by
  have hda := decodeIR_modulateIR a
  have hdb := decodeIR_modulateIR b
  rw [Nat.mod_eq_of_lt ha] at hda
  rw [Nat.mod_eq_of_lt hb] at hdb
  have hinj : timedPhases (modulateIR a) = timedPhases (modulateIR b) → a = b := by
    intro h
    rw [← hda, ← hdb, h]
  exact ⟨hda, hinj, fun h => hinj (by rw [h])⟩

/-- Witness of C16: the phases of the frame 0x3839 decode to 0x3839. -/
theorem C16_modulation_lossless_witness :
    decodeIR (timedPhases (modulateIR 0x3839)) = 0x3839 :=
  (C16_modulation_lossless 0x3839 0x3839 (by decide) (by decide)).1

/-! ## Total durations: claim C17 -/

theorem totalDelay_render (toks : List Token) (rest : List Event) :
    totalDelay (renderTokens toks ++ rest)
      = 5950 * toks.count .preamble + 1900 * toks.countP Token.isSymbol
        + 4000 * toks.count .stop + totalDelay rest := by
  induction toks with
  | nil => simp [renderTokens]
  | cons t ts ih =>
    cases t with
    | preamble =>
      simp [renderTokens, Token.events, outPreamble, totalDelay, ih, List.count_cons,
        List.countP_cons, Token.isSymbol, TIME_PREAMBLE_HIGH_US, TIME_PREAMBLE_LOW_US]
      omega
    | symbol b =>
      cases b <;>
        simp [renderTokens, Token.events, outBitHigh, outBitLow, totalDelay, ih,
          List.count_cons, List.countP_cons, Token.isSymbol,
          TIME_MANCHESTER_TRANSITION_US] <;> omega
    | stop =>
      simp [renderTokens, Token.events, totalDelay, ih, List.count_cons, List.countP_cons,
        Token.isSymbol]
      omega

theorem carrierOnTime_render (toks : List Token) (s : Bool) :
    carrierOnTime s (renderTokens toks ++ [.pwm_set_mode false])
      = 3050 * toks.count .preamble + 950 * toks.countP Token.isSymbol
        + 4000 * toks.count .stop := by
  induction toks generalizing s with
  | nil => simp [renderTokens, carrierOnTime]
  | cons t ts ih =>
    cases t with
    | preamble =>
      simp [renderTokens, Token.events, outPreamble, carrierOnTime, ih, List.count_cons,
        List.countP_cons, Token.isSymbol, TIME_PREAMBLE_HIGH_US, TIME_PREAMBLE_LOW_US]
      omega
    | symbol b =>
      cases b <;>
        simp [renderTokens, Token.events, outBitHigh, outBitLow, carrierOnTime, ih,
          List.count_cons, List.countP_cons, Token.isSymbol,
          TIME_MANCHESTER_TRANSITION_US] <;> omega
    | stop =>
      simp [renderTokens, Token.events, carrierOnTime, ih, List.count_cons, List.countP_cons,
        Token.isSymbol]
      omega

/-- C17: the total of all delays requested during one full transmission is the
same for every frame, 3 x (3050 + 2900 + 34 x 2 x 950) + 4000 = 215650 us, and
the total time the carrier is commanded ON is likewise frame-independent,
3 x (3050 + 34 x 950) + 4000 = 110050 us, whatever the carrier state before. -/
theorem C17_total_durations (frame : Nat) (s : Bool) :
    totalDelay (transmit frame) = 3 * (3050 + 2900 + 34 * 2 * 950) + 4000
      ∧ totalDelay (transmit frame) = 215650
      ∧ carrierOnTime s (transmit frame) = 3 * (3050 + 34 * 950) + 4000
      ∧ carrierOnTime s (transmit frame) = 110050 := by
  obtain ⟨h1, h2, h3, _⟩ := transmitTokens_count frame
  have hd := totalDelay_render (transmitTokens frame) [.pwm_set_mode false]
  have hc := carrierOnTime_render (transmitTokens frame) s
  rw [h1, h2, h3] at hd hc
  rw [transmit_tokens, hd, hc]
  exact ⟨rfl, rfl, rfl, rfl⟩

/-! ## Carrier-ON runs: claim C18 -/

/-- The runs already closed are carried along unchanged by the scan. -/
theorem foldl_runStep_out (l : List (Bool × Nat)) (c : Option Nat) (out : List Nat) :
    l.foldl runStep (c, out)
      = ((l.foldl runStep (c, [])).1, out ++ (l.foldl runStep (c, [])).2) := by
  induction l generalizing c out with
  | nil => simp
  | cons p ps ih =>
    obtain ⟨b, d⟩ := p
    simp only [List.foldl_cons]
    cases b with
    | true =>
      have hs : ∀ o, runStep (c, o) (true, d) = (some (c.getD 0 + d), o) := fun _ => rfl
      rw [hs, hs, ih _ out]
    | false =>
      have hs : ∀ o, runStep (c, o) (false, d) = (none, o ++ c.toList) := fun _ => rfl
      rw [hs, hs, ih none (out ++ c.toList), ih none ([] ++ c.toList)]
      simp

/-- A sequence that ends with an OFF phase leaves no run open. -/
theorem foldl_runStep_off (l : List (Bool × Nat)) (d : Nat) (st : Option Nat × List Nat) :
    ((l ++ [(false, d)]).foldl runStep st).1 = none := by
  simp [List.foldl_append, runStep]

/-- After a sequence that leaves no run open, the runs of what follows are
appended. -/
theorem onRuns_append (a b : List (Bool × Nat))
    (ha : (a.foldl runStep (none, [])).1 = none) :
    onRuns (a ++ b) = onRuns a ++ onRuns b
      ∧ (((a ++ b).foldl runStep (none, [])).1 = (b.foldl runStep (none, [])).1) := by
  unfold onRuns
  simp only [List.foldl_append]
  have h : a.foldl runStep (none, []) = (none, (a.foldl runStep (none, [])).2) :=
    Prod.ext ha rfl
  rw [h, foldl_runStep_out b none]
  simp

/-- Scanning data symbols from a state whose open run is absent or 950 long
closes only runs of at most 1900 and ends in such a state again. -/
theorem foldl_runStep_symbols (l : List Bool) (c : Option Nat)
    (hc : c = none ∨ c = some 950) :
    (((tokenPhases (l.map Token.symbol)).foldl runStep (c, [])).1 = none
        ∨ ((tokenPhases (l.map Token.symbol)).foldl runStep (c, [])).1 = some 950)
      ∧ ∀ x ∈ ((tokenPhases (l.map Token.symbol)).foldl runStep (c, [])).2, x ≤ 1900 := by
  induction l generalizing c with
  | nil =>
    simp only [List.map_nil, tokenPhases, List.foldl_nil]
    exact ⟨hc, by simp⟩
  | cons b bs ih =>
    simp only [List.map_cons, tokenPhases, List.foldl_append]
    cases b with
    | true =>
      have hstep : (Token.symbol true).phases.foldl runStep (c, [])
          = (some 950, c.toList) := by
        rcases hc with h | h <;> subst h <;> rfl
      rw [hstep, foldl_runStep_out]
      obtain ⟨h1, h2⟩ := ih (some 950) (Or.inr rfl)
      refine ⟨h1, ?_⟩
      intro x hx
      rw [List.mem_append] at hx
      rcases hx with hx | hx
      · rcases hc with h | h <;> subst h <;> simp at hx
        omega
      · exact h2 x hx
    | false =>
      have hstep : (Token.symbol false).phases.foldl runStep (c, [])
          = (none, [c.getD 0 + 950]) := by
        rcases hc with h | h <;> subst h <;> rfl
      rw [hstep, foldl_runStep_out]
      obtain ⟨h1, h2⟩ := ih none (Or.inl rfl)
      refine ⟨h1, ?_⟩
      intro x hx
      rw [List.mem_append] at hx
      rcases hx with hx | hx
      · rcases hc with h | h <;> subst h <;> simp at hx <;> omega
      · exact h2 x hx

theorem tokenPhases_symbols_length (l : List Bool) :
    (tokenPhases (l.map Token.symbol)).length = 2 * l.length := by
  have h := tokenPhases_length (l.map Token.symbol)
  rw [(symbols_count l).2.1, List.length_map] at h
  omega

/-- The phases of one frame repetition: the preamble, the 32 data symbols and
the two trailer symbols. -/
theorem timedPhases_modulateIR_shape (frame : Nat) :
    timedPhases (modulateIR frame)
      = [(true, 3050), (false, 2900)]
        ++ (tokenPhases ((dataBits 32 (frame % 4294967296)).map Token.symbol)
          ++ [(false, 950), (true, 950), (true, 950), (false, 950)]) := by
  rw [timedPhases_modulateIR]
  unfold frameTokens
  rw [tokenPhases, tokenPhases_append]
  rfl

theorem dataTrailerPhases_shape (frame : Nat) :
    dataTrailerPhases frame
      = (tokenPhases ((dataBits 32 (frame % 4294967296)).map Token.symbol)
          ++ [(false, 950), (true, 950), (true, 950)]) ++ [(false, 950)] := by
  unfold dataTrailerPhases
  rw [timedPhases_modulateIR_shape, List.drop_left' (by rfl)]
  simp

/-- The data and trailer section leaves no run open and has no carrier-ON run
longer than 1900 us. -/
theorem dataTrailerPhases_runs (frame : Nat) :
    ((dataTrailerPhases frame).foldl runStep (none, [])).1 = none
      ∧ ∀ x ∈ onRuns (dataTrailerPhases frame), x ≤ 1900 := by
  have hshape := dataTrailerPhases_shape frame
  have hclosed : ((dataTrailerPhases frame).foldl runStep (none, [])).1 = none := by
    rw [hshape]
    exact foldl_runStep_off _ _ _
  refine ⟨hclosed, ?_⟩
  intro x hx
  unfold onRuns at hx
  simp only [hclosed, Option.toList, List.append_nil] at hx
  rw [hshape] at hx
  simp only [List.append_assoc, List.cons_append, List.nil_append, List.foldl_append] at hx
  obtain ⟨h1, h2⟩ := foldl_runStep_symbols (dataBits 32 (frame % 4294967296)) none (Or.inl rfl)
  generalize hr : List.foldl runStep (none, [])
    (tokenPhases (List.map Token.symbol (dataBits 32 (frame % 4294967296)))) = r at hx h1 h2
  obtain ⟨c1, o1⟩ := r
  simp only at h1 h2
  rcases h1 with h | h
  · subst h
    simp [List.foldl, runStep] at hx
    rcases hx with hx | hx
    · exact h2 x hx
    · omega
  · subst h
    simp [List.foldl, runStep] at hx
    rcases hx with hx | hx | hx
    · exact h2 x hx
    · omega
    · omega

theorem timedPhases_modulateIR_split (frame : Nat) :
    timedPhases (modulateIR frame)
      = [(true, 3050), (false, 2900)] ++ dataTrailerPhases frame := by
  unfold dataTrailerPhases
  rw [timedPhases_modulateIR_shape, List.drop_left' (by rfl)]

/-- The carrier-ON runs of one frame repetition: the 3050 us preamble mark, then
those of the data and trailer section; no run stays open. -/
theorem onRuns_modulateIR (frame : Nat) (rest : List (Bool × Nat)) :
    onRuns (timedPhases (modulateIR frame) ++ rest)
      = 3050 :: onRuns (dataTrailerPhases frame) ++ onRuns rest := by
  have hP : ([(true, 3050), (false, 2900)].foldl runStep (none, [])).1 = none := rfl
  have hD := (dataTrailerPhases_runs frame).1
  have hPD := onRuns_append [(true, 3050), (false, 2900)] (dataTrailerPhases frame) hP
  have hclosed : ((timedPhases (modulateIR frame)).foldl runStep (none, [])).1 = none := by
    rw [timedPhases_modulateIR_split, hPD.2, hD]
  rw [(onRuns_append _ rest hclosed).1, timedPhases_modulateIR_split, hPD.1]
  rfl

theorem timedPhases_transmit (frame : Nat) :
    timedPhases (transmit frame)
      = timedPhases (modulateIR frame) ++ (timedPhases (modulateIR frame)
        ++ (timedPhases (modulateIR frame) ++ [(true, 4000)])) := by
  rw [transmit_tokens, timedPhases_render, timedPhases_modulateIR]
  unfold transmitTokens
  simp only [tokenPhases_append, List.append_assoc]
  rfl

/-- C18: for every frame, the data and trailer section of a frame repetition (68
phases, ending with carrier OFF) has no run of carrier-ON phases longer than
2 x 950 = 1900 us; across the whole transmission the runs longer than 1900 us
are exactly the three 3050 us preamble marks and the final 4000 us stop pulse.
The second and third preamble and the stop pulse directly follow the OFF phase
that ends a data and trailer section, and the first preamble follows the
carrier-off command that ends the carrier set-up in every trace `main` sends. -/
theorem C18_long_on_runs (frame : Nat) :
    timedPhases (modulateIR frame)
        = [(true, 3050), (false, 2900)] ++ dataTrailerPhases frame
      ∧ (dataTrailerPhases frame).length = 2 * 34
      ∧ (dataTrailerPhases frame).getLast? = some (false, 950)
      ∧ (∀ x ∈ onRuns (dataTrailerPhases frame), x ≤ 2 * 950)
      ∧ timedPhases (transmit frame)
          = ([(true, 3050), (false, 2900)] ++ dataTrailerPhases frame)
            ++ (([(true, 3050), (false, 2900)] ++ dataTrailerPhases frame)
            ++ (([(true, 3050), (false, 2900)] ++ dataTrailerPhases frame)
            ++ [(true, 4000)]))
      ∧ onRuns (timedPhases (transmit frame))
          = 3050 :: onRuns (dataTrailerPhases frame)
            ++ (3050 :: onRuns (dataTrailerPhases frame)
            ++ (3050 :: onRuns (dataTrailerPhases frame) ++ [4000]))
      ∧ (onRuns (timedPhases (transmit frame))).filter (fun x => decide (1900 < x))
          = [3050, 3050, 3050, 4000]
      ∧ (∀ s, carrierAfter s setupPWM = some false)
      ∧ setupPWM.getLast? = some (.pwm_set_mode false)
      ∧ (∀ (longMax : Nat) (initOk : Bool) (argv : List (List Char)) (w : Nat)
          (tr : List Event), main longMax initOk argv = .sent w tr →
          tr = setupPWM ++ transmit w) := by
  have hsplit := timedPhases_modulateIR_split frame
  have hruns := (dataTrailerPhases_runs frame).2
  have hall : onRuns (timedPhases (transmit frame))
      = 3050 :: onRuns (dataTrailerPhases frame)
        ++ (3050 :: onRuns (dataTrailerPhases frame)
        ++ (3050 :: onRuns (dataTrailerPhases frame) ++ [4000])) := by
    rw [timedPhases_transmit, onRuns_modulateIR, onRuns_modulateIR, onRuns_modulateIR]
    rfl
  have hnone : (onRuns (dataTrailerPhases frame)).filter (fun x => decide (1900 < x)) = [] := by
    rw [List.filter_eq_nil_iff]
    intro x hx
    have := hruns x hx
    simp only [decide_eq_true_eq]
    omega
  have hmain : ∀ (longMax : Nat) (initOk : Bool) (argv : List (List Char)) (w : Nat)
      (tr : List Event), main longMax initOk argv = .sent w tr →
      tr = setupPWM ++ transmit w := by
    intro longMax initOk argv w tr h
    obtain ⟨_, _, _, _, _, _, _, htr⟩ := main_sent _ _ _ _ _ h
    exact htr
  refine ⟨hsplit, ?_, ?_, hruns, ?_, hall, ?_, fun s => rfl, rfl, hmain⟩
  · rw [dataTrailerPhases_shape]
    simp only [List.length_append, tokenPhases_symbols_length, dataBits_length]
    rfl
  · rw [dataTrailerPhases_shape]
    exact List.getLast?_concat _
  · rw [timedPhases_transmit, hsplit]
  · rw [hall]
    simp only [List.filter_append, List.filter_cons, hnone]
    rfl

/-! ## Argument access: claim C19 -/

theorem char_toNat_inj (a b : Char) (h : a.toNat = b.toNat) : a = b := by
  rw [← Char.ofNat_toNat a, ← Char.ofNat_toNat b, h]

/-- A zero result of `strncmp` against a literal that starts with the
character `c` means that the string starts with `c`. -/
theorem strncmp_zero_head (a lit : List Char) (c : Char) (n : Nat) (hc : c.toNat ≠ 0)
    (h : strncmp a (c :: lit) (n + 1) = 0) : ∃ r, a = c :: r := by
  cases a with
  | nil =>
    simp only [strncmp] at h
    omega
  | cons x r =>
    by_cases hx : x = c
    · exact ⟨r, by rw [hx]⟩
    · simp only [strncmp, hx, if_false] at h
      exact absurd (char_toNat_inj x c (by omega)) hx

/-- An argument that passes the `droplet` test of the argument-count check is
parsed as mode `WATER`: it matches none of the prefixes tried before. -/
theorem parseMode_droplet (a : List Char) (h : strncmp a "droplet".toList 7 = 0) :
    parseMode a = some .WATER := by
  obtain ⟨r, hr⟩ := strncmp_zero_head a "roplet".toList 'd' 6 (by decide) h
  subst hr
  unfold parseMode
  rw [if_neg (by simp [strncmp]), if_neg (by simp [strncmp]), if_neg (by simp [strncmp]),
    if_neg (by simp [strncmp]), if_pos h]

theorem mainSend_ne_fault (initOk : Bool) (func : function_t) (mode : air_mode_t)
    (fan : fan_speed_t) (temp : Nat) : mainSend initOk func mode fan temp ≠ .fault := by
  unfold mainSend
  split <;> simp

/-- On at least four arguments `mainBody` reads `argv[0..3]` and, unless the mode
is `WATER`, `argv[4]`; it faults only when it reads `argv[4]` and there are
just four arguments. -/
theorem mainBody_reads (longMax : Nat) (initOk : Bool) (a0 a1 a2 a3 : List Char)
    (rest : List (List Char)) :
    (∀ i ∈ (mainBody longMax initOk (a0 :: a1 :: a2 :: a3 :: rest)).reads,
        i ≤ 3 ∨ (i = 4 ∧ parseMode a2 ≠ some .WATER))
      ∧ ((mainBody longMax initOk (a0 :: a1 :: a2 :: a3 :: rest)).outcome = .fault →
          rest = [] ∧ parseMode a2 ≠ some .WATER) := by
  simp only [mainBody, withArg, returnUsage_eq, Run.done, List.getElem?_cons_succ,
    List.getElem?_cons_zero]
  cases parseFunction a1 with
  | none => simp
  | some func =>
    cases hm : parseMode a2 with
    | none => simp
    | some mode =>
      simp only []
      by_cases he : (strtol longMax a3).2 ≠ []
      · simp [he]
      · by_cases ht : ((strtol longMax a3).1 % 256).toNat < TEMP_MIN_C
            ∨ ((strtol longMax a3).1 % 256).toNat > TEMP_MAX_C
        · rw [if_neg he, if_pos ht]
          simp
        · rw [if_neg he, if_neg ht]
          by_cases hw : mode = air_mode_t.WATER
          · rw [if_pos hw]
            simp [mainSend_ne_fault]
          · rw [if_neg hw]
            cases rest with
            | nil =>
              simp [hw]
            | cons a4 r =>
              cases hf : parseFan a4 with
              | none =>
                simp [hw, hf]
              | some fan =>
                simp [hw, hf, mainSend_ne_fault]

/-- With a mode argument parsed as `WATER`, the outcome of `mainBody` does not
depend on what follows `argv[3]`, and a word it sends is a `WATER` word with
fan `F_LOW`. -/
theorem mainBody_water (longMax : Nat) (initOk : Bool) (a0 a1 a2 a3 : List Char)
    (rest : List (List Char)) (hm : parseMode a2 = some .WATER) :
    (mainBody longMax initOk (a0 :: a1 :: a2 :: a3 :: rest)).outcome
        = (mainBody longMax initOk [a0, a1, a2, a3]).outcome
      ∧ ∀ w tr, (mainBody longMax initOk [a0, a1, a2, a3]).outcome = .sent w tr →
          ∃ func t, w = encodeCommand func .WATER .F_LOW t := by
  refine ⟨by simp [mainBody, withArg, returnUsage, hm], ?_⟩
  intro w tr h
  simp only [mainBody, withArg, hm, List.getElem?_cons_succ, List.getElem?_cons_zero] at h
  cases hf : parseFunction a1 with
  | none =>
    simp only [hf] at h
    exact absurd h (returnUsage_ne_sent _ _ _)
  | some func =>
    simp only [hf, if_true] at h
    split at h
    · exact absurd h (returnUsage_ne_sent _ _ _)
    · split at h
      · simp [Run.done] at h
      · obtain ⟨h1, -⟩ := mainSend_sent _ _ _ _ _ _ _ h
        refine ⟨func, ((strtol longMax a3).1 % 256).toNat, ?_⟩
        rw [h1]
        simp [encodeCommand]

theorem mainRun_four (longMax : Nat) (initOk : Bool) (a0 a1 a2 a3 : List Char) :
    mainRun longMax initOk [a0, a1, a2, a3]
      = if strncmp a2 "droplet".toList 7 ≠ 0 then { reads := [2, 0], outcome := .usage }
        else { reads := 2 :: (mainBody longMax initOk [a0, a1, a2, a3]).reads,
               outcome := (mainBody longMax initOk [a0, a1, a2, a3]).outcome } := by
  simp only [mainRun, withArg, returnUsage_eq, List.length_cons, List.length_nil,
    List.getElem?_cons_succ, List.getElem?_cons_zero]
  by_cases hd : strncmp a2 "droplet".toList 7 = 0
  · rw [if_neg (not_not.mpr hd), if_neg (not_not.mpr hd)]
    simp
  · rw [if_pos hd, if_pos hd]
    simp

theorem mainRun_five (longMax : Nat) (initOk : Bool) (a0 a1 a2 a3 a4 : List Char) :
    mainRun longMax initOk [a0, a1, a2, a3, a4]
      = mainBody longMax initOk [a0, a1, a2, a3, a4] := by
  simp [mainRun]

/-- Outside 4 and 5 arguments `main` executes `return usage(argv[0]);` at once. -/
theorem mainRun_other (longMax : Nat) (initOk : Bool) (argv : List (List Char))
    (h4 : argv.length ≠ 4) (h5 : argv.length ≠ 5) :
    mainRun longMax initOk argv
      = { reads := [0], outcome := if argv = [] then .fault else .usage } := by
  simp [mainRun, h4, h5, returnUsage_eq]

/-- Where the reads of `main` lie, and when it faults. -/
theorem mainRun_reads (longMax : Nat) (initOk : Bool) (argv : List (List Char)) :
    (∀ i ∈ (mainRun longMax initOk argv).reads,
        i = 0 ∨ (1 ≤ i ∧ i ≤ 3 ∧ (argv.length = 4 ∨ argv.length = 5))
          ∨ (i = 4 ∧ argv.length = 5))
      ∧ ((mainRun longMax initOk argv).outcome = .fault ↔ argv = []) := by
  by_cases h4 : argv.length = 4
  · match argv, h4 with
    | [a0, a1, a2, a3], _ =>
      rw [mainRun_four]
      by_cases hd : strncmp a2 "droplet".toList 7 ≠ 0
      · rw [if_pos hd]
        simp
      · rw [if_neg hd]
        have hm := parseMode_droplet a2 (by simpa using hd)
        obtain ⟨hr, hf⟩ := mainBody_reads longMax initOk a0 a1 a2 a3 []
        constructor
        · intro i hi
          simp only [List.mem_cons] at hi
          rcases hi with hi | hi
          · subst hi
            simp
          · rcases hr i hi with h | ⟨-, h⟩
            · have hl : [a0, a1, a2, a3].length = 4 := rfl
              rw [hl]
              omega
            · exact absurd hm h
        · constructor
          · intro h
            exact absurd hm (hf h).2
          · intro h
            simp at h
  · by_cases h5 : argv.length = 5
    · match argv, h5 with
      | [a0, a1, a2, a3, a4], _ =>
        rw [mainRun_five]
        obtain ⟨hr, hf⟩ := mainBody_reads longMax initOk a0 a1 a2 a3 [a4]
        constructor
        · intro i hi
          have hl : [a0, a1, a2, a3, a4].length = 5 := rfl
          rw [hl]
          rcases hr i hi with h | ⟨h, -⟩
          · omega
          · omega
        · constructor
          · intro h
            exact absurd (hf h).1 (by simp)
          · intro h
            simp at h
    · rw [mainRun_other _ _ _ h4 h5]
      constructor
      · intro i hi
        simp at hi
        exact Or.inl hi
      · simp

/-- C19: for every argument vector, `main` reads `argv[4]` only when `argc = 5`
and reads `argv[1]`, `argv[2]`, `argv[3]` only when `argc` is 4 or 5 (so only
when `argc >= 4`); every element it reads lies below `argc`, except that with
`argc = 0` the statement `return usage(argv[0]);` reads `argv[0]`, which is the
only case where `main` faults.  With any other `argc` outside 4 and 5 it reads
`argv[0]` alone.  With `argc = 4` it goes on past the argument-count check only
if `argv[2]` passes the `droplet` test; then the mode is WATER (none of `cool`,
`heat`, `fan`, `recycle` matches), `argv[4]` is not read, a word it sends is a
WATER word with fan `F_LOW`, and the outcome is the one for any fifth
argument. -/
theorem C19_argument_access_in_bounds (longMax : Nat) (initOk : Bool)
    (argv : List (List Char)) :
    (4 ∈ (mainRun longMax initOk argv).reads → argv.length = 5)
      ∧ (∀ i, 1 ≤ i → i ≤ 3 → i ∈ (mainRun longMax initOk argv).reads →
          4 ≤ argv.length ∧ argv.length ≤ 5)
      ∧ (∀ i ∈ (mainRun longMax initOk argv).reads,
          i < argv.length ∨ (i = 0 ∧ argv = []))
      ∧ (main longMax initOk argv = .fault ↔ argv = [])
      ∧ (argv.length ≠ 4 → argv.length ≠ 5 →
          mainRun longMax initOk argv
            = { reads := [0], outcome := if argv = [] then .fault else .usage })
      ∧ (∀ a0 a1 a2 a3, argv = [a0, a1, a2, a3] →
          (strncmp a2 "droplet".toList 7 ≠ 0 →
            mainRun longMax initOk argv = { reads := [2, 0], outcome := .usage })
          ∧ (strncmp a2 "droplet".toList 7 = 0 →
              parseMode a2 = some .WATER
              ∧ 4 ∉ (mainRun longMax initOk argv).reads
              ∧ (∀ a4, main longMax initOk [a0, a1, a2, a3, a4] = main longMax initOk argv)
              ∧ (∀ w tr, main longMax initOk argv = .sent w tr →
                  ∃ func t, w = encodeCommand func .WATER .F_LOW t))) := by
  obtain ⟨hreads, hfault⟩ := mainRun_reads longMax initOk argv
  have h4 : 4 ∈ (mainRun longMax initOk argv).reads → argv.length = 5 := by
    intro h
    rcases hreads 4 h with h | ⟨-, h, -⟩ | ⟨-, h⟩
    · omega
    · omega
    · exact h
  refine ⟨h4, ?_, ?_, hfault, mainRun_other longMax initOk argv, ?_⟩
  · intro i h1 h3 hi
    rcases hreads i hi with h | ⟨-, -, h⟩ | ⟨h, -⟩
    · omega
    · omega
    · omega
  · intro i hi
    rcases hreads i hi with h | ⟨-, hi3, h⟩ | ⟨h, hl⟩
    · cases argv with
      | nil => exact Or.inr ⟨h, rfl⟩
      | cons a as =>
        left
        rw [h, List.length_cons]
        omega
    · left
      omega
    · left
      omega
  · rintro a0 a1 a2 a3 rfl
    refine ⟨?_, ?_⟩
    · intro hd
      rw [mainRun_four, if_pos hd]
    · intro hd
      have hm := parseMode_droplet a2 hd
      have hw := mainBody_water longMax initOk a0 a1 a2 a3
      have hout : main longMax initOk [a0, a1, a2, a3]
          = (mainBody longMax initOk [a0, a1, a2, a3]).outcome := by
        unfold main
        rw [mainRun_four, if_neg (by simpa using hd)]
      refine ⟨hm, ?_, ?_, ?_⟩
      · intro h
        have := h4 h
        simp at this
      · intro a4
        rw [hout]
        unfold main
        rw [mainRun_five]
        exact (hw [a4] hm).1
      · intro w tr h
        rw [hout] at h
        exact (hw [] hm).2 w tr h

/-- Witness of C19: with five arguments and mode `cool` the reads are
`argv[1..4]`; with the four arguments `set droplet 22` the reads are
`argv[2]`, `argv[1]`, `argv[2]`, `argv[3]`, the mode is WATER and the word sent
is the WATER word with fan LOW; with no argument at all `main` reads `argv[0]`
and faults. -/
theorem C19_argument_access_in_bounds_witness :
    parseMode "droplet".toList = some .WATER
      ∧ (mainRun 2147483647 true (args ["airwell", "power", "cool", "22", "auto"])).reads
          = [1, 2, 3, 4]
      ∧ mainRun 2147483647 true (args ["airwell", "set", "droplet", "22"])
          = { reads := [2, 1, 2, 3],
              outcome := .sent (encodeCommand .SETTING .WATER .F_LOW 22)
                (setupPWM ++ transmit (encodeCommand .SETTING .WATER .F_LOW 22)) }
      ∧ mainRun 2147483647 true (args ["airwell", "power", "cool", "22"])
          = { reads := [2, 0], outcome := .usage }
      ∧ mainRun 2147483647 true (args ["airwell", "power", "cool", "22", "bogus"])
          = { reads := [1, 2, 3, 4, 0], outcome := .usage }
      ∧ mainRun 2147483647 true (args ["airwell", "power"])
          = { reads := [0], outcome := .usage }
      ∧ mainRun 2147483647 true [] = { reads := [0], outcome := .fault } :=
  ⟨((C19_argument_access_in_bounds 2147483647 true
      (args ["airwell", "set", "droplet", "22"])).2.2.2.2.2
      "airwell".toList "set".toList "droplet".toList "22".toList rfl).2 (by decide) |>.1,
   rfl, rfl, rfl, rfl, rfl, rfl⟩

end Airwell
